import Mathlib

/-!
# aptly: `db cleanup` and `mirror drop`

A shallow embedding of the two commands of `cmd/db_cleanup.go` and
`cmd/mirror_drop.go`.  The commands run against the process-wide `context`
(collection factory, database, package pool).  The embedding threads that
context explicitly and records every call to a collaborator, with its result,
in a trace.  Progress output (`context.progress`, `fmt.Printf`) is not part of
the embedding, except for the one message that carries a computed value, the
number of bytes freed.
-/

namespace Aptly

/-! ## Values -/

/-- A Go `error` value, identified by its message (`Error()`). -/
structure GoError where
  msg : String
deriving DecidableEq, Repr

/-- The call `fmt.Errorf(format, err)` for a format of the shape `"<text>%s"`:
a new error whose message is the text followed by the message of `err`. -/
def Errorf (text : String) (err : GoError) : GoError :=
  ⟨text ++ err.msg⟩

/-- A package reference key, Go type `[]byte`. -/
abbrev Key := List UInt8

/-- A file path in the package pool.  It is a Go `string`, kept as its sequence
of characters so that the lexicographic order used by `sort.Strings` and by the
comparison operators is the order of the type. -/
abbrev Path := List Char

/-- Two's-complement wrap-around of an integer into the range of `int64`. -/
def wrapInt64 (x : Int) : Int :=
  (x + 9223372036854775808) % 18446744073709551616 - 9223372036854775808

/-! ## Package reference lists (`debian.PackageRefList`) -/

/-- The type `debian.PackageRefList`: a list of reference keys. -/
structure PackageRefList where
  Refs : List Key
deriving DecidableEq, Repr

/-- Modelled from the spec: `debian.NewPackageRefList` is not among the sources;
it creates the empty reference set. -/
def NewPackageRefList : PackageRefList :=
  ⟨[]⟩

/-- Modelled from the spec: `PackageRefList.Merge` is not among the sources; the
spec describes it as the union, "a set containing every key present in either
operand, each key once".  The flag `overrideMatching` is always `false` in the
callers embedded here. -/
def PackageRefList.Merge (l r : PackageRefList) : PackageRefList :=
  ⟨(l.Refs ++ r.Refs).dedup⟩

/-- Modelled from the spec: `PackageRefList.Substract` is not among the sources;
the spec describes it as the difference, the "keys present in the receiver but
absent from `other`". -/
def PackageRefList.Substract (l r : PackageRefList) : PackageRefList :=
  ⟨l.Refs.filter (fun k => decide (k ∉ r.Refs))⟩

/-- Modelled from the spec: `PackageRefList.Len` is not among the sources; it is
the number of keys. -/
def PackageRefList.Len (l : PackageRefList) : Nat :=
  l.Refs.length

/-- Modelled from the spec: the `ForEach` of a collection or of a reference
list is not among the sources; the spec describes it as "a restartable, finite
iteration failing fast on the first error from `visit`".  The handler reads and
updates the state `σ` that the Go closure captures. -/
def ForEach {α σ : Type} : List α → (α → σ → σ × Option GoError) → σ → σ × Option GoError
  | [], _, s => (s, none)
  | x :: xs, handler, s =>
    match handler x s with
    | (s1, none) => ForEach xs handler s1
    | (s1, some err) => (s1, some err)

/-! ## String slices (`utils.StrSlicesSubstract`, `sort.Strings`) -/

/-- The library call `sort.Strings`: sorts in increasing lexicographic order. -/
def sortStrings (l : List Path) : List Path :=
  l.insertionSort (fun a b => a ≤ b)

/-- Modelled from the spec: `utils.StrSlicesSubstract` is not among the sources;
the spec describes it as a "sorted merge-scan difference", "a linear merge-scan
emitting receiver-only elements".  For the current element `x` of `l` the scan
first steps over the elements of `r` that are smaller than `x`; if `r` is then
exhausted, what is left of `l` is the rest of the result; otherwise `x` is
dropped when it equals the current element of `r` and emitted when it is
smaller, and the scan moves to the next element of `l`. -/
def StrSlicesSubstract : List Path → List Path → List Path
  | [], _ => []
  | x :: l, r =>
    match r.dropWhile (fun y => decide (y < x)) with
    | [] => x :: l
    | y :: r1 =>
      if x = y then StrSlicesSubstract l (y :: r1)
      else x :: StrSlicesSubstract l (y :: r1)

/-! ## The context: collections, database, package pool -/

/-- A mirror (`debian.RemoteRepo`) as the command sees it: its name, the result
of `LoadComplete` on it, and the reference list `RefList()` returns once it is
loaded (`nil` for a mirror that holds no packages). -/
structure RemoteRepo where
  Name : String
  loadErr : Option GoError
  packageRefs : Option PackageRefList
deriving DecidableEq, Repr

/-- A local repository (`debian.LocalRepo`), with the same three parts as a
mirror. -/
structure LocalRepo where
  Name : String
  loadErr : Option GoError
  packageRefs : Option PackageRefList
deriving DecidableEq, Repr

/-- A snapshot (`debian.Snapshot`): its name, the names of the mirrors recorded
as its source, the result of `LoadComplete` and its reference list (the spec:
"snapshots are assumed to always have a reference list"). -/
structure Snapshot where
  Name : String
  sourceMirrors : List String
  loadErr : Option GoError
  packageRefs : PackageRefList
deriving DecidableEq, Repr

/-- A package record of the metadata store: its key and the result of
`FilepathList(packagePool)`, an error or the pool paths of its files. -/
structure Package where
  key : Key
  filesErr : Option GoError
  files : List Path
deriving DecidableEq, Repr

/-- The database with its package collection: the committed package records and
the open batch, if any, holding the keys whose deletion is pending (the spec's
batch, "an atomic grouping of metadata-store writes committed or rolled back
together"). -/
structure Database where
  packages : List Package
  batch : Option (List Key)
deriving DecidableEq, Repr

/-- A file of the package pool with its size in bytes (an `int64`). -/
structure PoolFile where
  path : Path
  size : Int
deriving DecidableEq, Repr

/-- The process-wide `context`: the three collections of the collection
factory, the database, the files of the package pool, and the failures of the
storage layer (the error, if any, that each fallible collaborator returns). -/
structure Context where
  remoteRepos : List RemoteRepo
  localRepos : List LocalRepo
  snapshots : List Snapshot
  database : Database
  packagePool : List PoolFile
  deleteByKeyErr : Key → Option GoError
  finishBatchErr : Option GoError
  compactDBErr : Option GoError
  filepathListErr : Option GoError
  removeErr : Path → Option GoError
  dropErr : String → Option GoError

/-- A call to a collaborator together with its result. -/
inductive Event where
  | LoadComplete (entity : String) (err : Option GoError)
  | StartBatch
  | DeleteByKey (key : Key) (err : Option GoError)
  | FinishBatch (err : Option GoError)
  | ByKey (key : Key) (err : Option GoError)
  | PackageFilepathList (key : Key) (err : Option GoError)
  | PoolFilepathList (err : Option GoError)
  | Remove (path : Path) (size : Int) (err : Option GoError)
  | DiskSpaceFreed (totalSize : Int)
  | CompactDB (err : Option GoError)
  | ByName (name : String) (err : Option GoError)
  | ByRemoteRepoSource (name : String) (snapshots : List String)
  | Drop (name : String) (err : Option GoError)
deriving DecidableEq, Repr

/-- The error a recorded call returned, if any. -/
def Event.err? : Event → Option GoError
  | .LoadComplete _ err => err
  | .StartBatch => none
  | .DeleteByKey _ err => err
  | .FinishBatch err => err
  | .ByKey _ err => err
  | .PackageFilepathList _ err => err
  | .PoolFilepathList err => err
  | .Remove _ _ err => err
  | .DiskSpaceFreed _ => none
  | .CompactDB err => err
  | .ByName _ err => err
  | .ByRemoteRepoSource _ _ => none
  | .Drop _ err => err

/-- The state a command runs in: the context and the calls made so far. -/
structure State where
  context : Context
  trace : List Event

/-- Appends a call to the trace. -/
def State.log (s : State) (ev : Event) : State :=
  { s with trace := s.trace ++ [ev] }

/-- What a command leaves behind: the error it returns (`none` for `nil`), the
context after it and the calls it made. -/
structure Outcome where
  err : Option GoError
  context : Context
  trace : List Event

/-! ## Collaborators -/

/-- Modelled from the spec: `RemoteRepoCollection.LoadComplete` is not among the
sources; it loads the mirror fully or fails. -/
def RemoteRepo.LoadComplete (repo : RemoteRepo) (s : State) : State × Option GoError :=
  (s.log (.LoadComplete repo.Name repo.loadErr), repo.loadErr)

/-- The method `RefList()` of a loaded mirror. -/
def RemoteRepo.RefList (repo : RemoteRepo) : Option PackageRefList :=
  repo.packageRefs

/-- Modelled from the spec: `LocalRepoCollection.LoadComplete` is not among the
sources; it loads the local repository fully or fails. -/
def LocalRepo.LoadComplete (repo : LocalRepo) (s : State) : State × Option GoError :=
  (s.log (.LoadComplete repo.Name repo.loadErr), repo.loadErr)

/-- The method `RefList()` of a loaded local repository. -/
def LocalRepo.RefList (repo : LocalRepo) : Option PackageRefList :=
  repo.packageRefs

/-- Modelled from the spec: `SnapshotCollection.LoadComplete` is not among the
sources; it loads the snapshot fully or fails. -/
def Snapshot.LoadComplete (snapshot : Snapshot) (s : State) : State × Option GoError :=
  (s.log (.LoadComplete snapshot.Name snapshot.loadErr), snapshot.loadErr)

/-- The method `RefList()` of a loaded snapshot. -/
def Snapshot.RefList (snapshot : Snapshot) : PackageRefList :=
  snapshot.packageRefs

/-- Modelled from the spec: `PackageCollection.AllPackageRefs` is not among the
sources; it is "the full set of package reference keys known to the metadata
store". -/
def AllPackageRefs (s : State) : PackageRefList :=
  ⟨(s.context.database.packages.map Package.key).dedup⟩

/-- Modelled from the spec: `database.StartBatch` is not among the sources; it
opens "a batched/transactional write scope against the metadata store". -/
def StartBatch (s : State) : State :=
  { context := { s.context with database := { s.context.database with batch := some [] } },
    trace := s.trace ++ [.StartBatch] }

/-- Modelled from the spec: `PackageCollection.DeleteByKey` is not among the
sources; it issues a delete-by-key, which fails or, inside a batch, is held
pending until the batch is committed (outside a batch it is applied at once). -/
def DeleteByKey (key : Key) (s : State) : State × Option GoError :=
  match s.context.deleteByKeyErr key with
  | some err => (s.log (.DeleteByKey key (some err)), some err)
  | none =>
    match s.context.database.batch with
    | some pending =>
      ({ context := { s.context with
                      database := { s.context.database with batch := some (pending ++ [key]) } },
         trace := s.trace ++ [.DeleteByKey key none] }, none)
    | none =>
      ({ context := { s.context with
                      database := { s.context.database with
                                    packages := s.context.database.packages.filter
                                      (fun p => decide (p.key ≠ key)) } },
         trace := s.trace ++ [.DeleteByKey key none] }, none)

/-- Modelled from the spec: `database.FinishBatch` is not among the sources; it
commits the batch, so that the records whose deletion is pending leave the
store, or fails. -/
def FinishBatch (s : State) : State × Option GoError :=
  match s.context.finishBatchErr with
  | some err => (s.log (.FinishBatch (some err)), some err)
  | none =>
    match s.context.database.batch with
    | some pending =>
      ({ context := { s.context with
                      database := { packages := s.context.database.packages.filter
                                      (fun p => decide (p.key ∉ pending)),
                                    batch := none } },
         trace := s.trace ++ [.FinishBatch none] }, none)
    | none => (s.log (.FinishBatch none), none)

/-- The error of a lookup that finds no record. -/
def ErrNotFound : GoError :=
  ⟨"key not found"⟩

/-- Modelled from the spec: `PackageCollection.ByKey` is not among the sources;
it resolves the package record of a key, or fails when the store holds none. -/
def ByKey (key : Key) (s : State) : State × Except GoError Package :=
  match s.context.database.packages.find? (fun p => decide (p.key = key)) with
  | some pkg => (s.log (.ByKey key none), .ok pkg)
  | none => (s.log (.ByKey key (some ErrNotFound)), .error ErrNotFound)

/-- Modelled from the spec: `Package.FilepathList` is not among the sources; it
returns the pool paths of the files of the package, or fails. -/
def Package.FilepathList (pkg : Package) (s : State) : State × Except GoError (List Path) :=
  match pkg.filesErr with
  | some err => (s.log (.PackageFilepathList pkg.key (some err)), .error err)
  | none => (s.log (.PackageFilepathList pkg.key none), .ok pkg.files)

/-- Modelled from the spec: `packagePool.FilepathList` is not among the sources;
it enumerates "every file currently present in the physical pool", or fails. -/
def PoolFilepathList (s : State) : State × Except GoError (List Path) :=
  match s.context.filepathListErr with
  | some err => (s.log (.PoolFilepathList (some err)), .error err)
  | none => (s.log (.PoolFilepathList none), .ok (s.context.packagePool.map PoolFile.path))

/-- The error of removing a file the pool does not hold. -/
def ErrNotExist : GoError :=
  ⟨"no such file or directory"⟩

/-- Modelled from the spec: `packagePool.Remove` is not among the sources; it
deletes the file at the path and returns its size in bytes, or fails. -/
def Remove (path : Path) (s : State) : State × Int × Option GoError :=
  match s.context.removeErr path with
  | some err => (s.log (.Remove path 0 (some err)), 0, some err)
  | none =>
    match s.context.packagePool.find? (fun f => decide (f.path = path)) with
    | none => (s.log (.Remove path 0 (some ErrNotExist)), 0, some ErrNotExist)
    | some f =>
      ({ context := { s.context with
                      packagePool := s.context.packagePool.filter
                        (fun g => decide (g.path ≠ path)) },
         trace := s.trace ++ [.Remove path f.size none] }, f.size, none)

/-- Modelled from the spec: `database.CompactDB` is not among the sources; it
compacts the database, which changes no record, or fails. -/
def CompactDB (s : State) : State × Option GoError :=
  (s.log (.CompactDB s.context.compactDBErr), s.context.compactDBErr)

/-- Modelled from the spec: `RemoteRepoCollection.ByName` is not among the
sources; it resolves a mirror by name, "not-found is a reported error". -/
def ByName (name : String) (s : State) : State × Except GoError RemoteRepo :=
  match s.context.remoteRepos.find? (fun r => decide (r.Name = name)) with
  | some repo => (s.log (.ByName name none), .ok repo)
  | none =>
    (s.log (.ByName name (some ⟨"mirror with name " ++ name ++ " not found"⟩)),
     .error ⟨"mirror with name " ++ name ++ " not found"⟩)

/-- Modelled from the spec: `SnapshotCollection.ByRemoteRepoSource` is not among
the sources; it enumerates "all Snapshot entities whose recorded source is this
mirror". -/
def ByRemoteRepoSource (repo : RemoteRepo) (s : State) : State × List Snapshot :=
  (s.log (.ByRemoteRepoSource repo.Name
      ((s.context.snapshots.filter (fun sn => decide (repo.Name ∈ sn.sourceMirrors))).map
        Snapshot.Name)),
   s.context.snapshots.filter (fun sn => decide (repo.Name ∈ sn.sourceMirrors)))

/-- Modelled from the spec: `RemoteRepoCollection.Drop` is not among the
sources; it deletes "the mirror's own metadata entry", or fails. -/
def Drop (repo : RemoteRepo) (s : State) : State × Option GoError :=
  match s.context.dropErr repo.Name with
  | some err => (s.log (.Drop repo.Name (some err)), some err)
  | none =>
    ({ context := { s.context with
                    remoteRepos := s.context.remoteRepos.filter
                      (fun r => decide (r.Name ≠ repo.Name)) },
       trace := s.trace ++ [.Drop repo.Name none] }, none)

/-! ## `aptly db cleanup` -/

/-- The closure passed to `RemoteRepoCollection().ForEach`; the captured
variable is `existingPackageRefs`. -/
def remoteRepoHandler (repo : RemoteRepo) (st : State × PackageRefList) :
    (State × PackageRefList) × Option GoError :=
  match repo.LoadComplete st.1 with
  | (s, some err) => ((s, st.2), some err)
  | (s, none) =>
    match repo.RefList with
    | some refs => ((s, st.2.Merge refs), none)
    | none => ((s, st.2), none)

/-- The closure passed to `LocalRepoCollection().ForEach`. -/
def localRepoHandler (repo : LocalRepo) (st : State × PackageRefList) :
    (State × PackageRefList) × Option GoError :=
  match repo.LoadComplete st.1 with
  | (s, some err) => ((s, st.2), some err)
  | (s, none) =>
    match repo.RefList with
    | some refs => ((s, st.2.Merge refs), none)
    | none => ((s, st.2), none)

/-- The closure passed to `SnapshotCollection().ForEach`. -/
def snapshotHandler (snapshot : Snapshot) (st : State × PackageRefList) :
    (State × PackageRefList) × Option GoError :=
  match snapshot.LoadComplete st.1 with
  | (s, some err) => ((s, st.2), some err)
  | (s, none) => ((s, st.2.Merge snapshot.RefList), none)

/-- The closure passed to `existingPackageRefs.ForEach`; the captured variable
is `referencedFiles`. -/
def referencedFilesHandler (key : Key) (st : State × List Path) :
    (State × List Path) × Option GoError :=
  match ByKey key st.1 with
  | (s, .error err2) => ((s, st.2), some err2)
  | (s, .ok pkg) =>
    match pkg.FilepathList s with
    | (s1, .error err2) => ((s1, st.2), some err2)
    | (s1, .ok paths) => ((s1, st.2 ++ paths), none)

/-- The body of the loop over `filesToDelete`; the loop variable updated is
`totalSize`, an `int64`. -/
def removeHandler (file : Path) (st : State × Int) : (State × Int) × Option GoError :=
  match Remove file st.1 with
  | (s, _, some err) => ((s, st.2), some err)
  | (s, size, none) => ((s, wrapInt64 (st.2 + size)), none)

/-- The command `aptly db cleanup`. -/
def aptlyDbCleanup (args : List String) (context : Context) : Outcome :=
  if args.length ≠ 0 then
    ⟨none, context, []⟩
  else
    match ForEach context.remoteRepos remoteRepoHandler (⟨context, []⟩, NewPackageRefList) with
    | ((s, _), some err) => ⟨some err, s.context, s.trace⟩
    | ((s, existingPackageRefs), none) =>
    match ForEach s.context.localRepos localRepoHandler (s, existingPackageRefs) with
    | ((s, _), some err) => ⟨some err, s.context, s.trace⟩
    | ((s, existingPackageRefs), none) =>
    match ForEach s.context.snapshots snapshotHandler (s, existingPackageRefs) with
    | ((s, _), some err) => ⟨some err, s.context, s.trace⟩
    | ((s, existingPackageRefs), none) =>
    let allPackageRefs := AllPackageRefs s
    let toDelete := allPackageRefs.Substract existingPackageRefs
    match ForEach toDelete.Refs DeleteByKey (StartBatch s) with
    | (s, some err) => ⟨some err, s.context, s.trace⟩
    | (s, none) =>
    match FinishBatch s with
    | (s, some err) => ⟨some (Errorf "unable to write to DB: " err), s.context, s.trace⟩
    | (s, none) =>
    match ForEach existingPackageRefs.Refs referencedFilesHandler (s, []) with
    | ((s, _), some err) => ⟨some err, s.context, s.trace⟩
    | ((s, referencedFiles), none) =>
    let referencedFiles := sortStrings referencedFiles
    match PoolFilepathList s with
    | (s, .error err) => ⟨some (Errorf "unable to collect file paths: " err), s.context, s.trace⟩
    | (s, .ok existingFiles) =>
    let filesToDelete := StrSlicesSubstract existingFiles referencedFiles
    match (if filesToDelete.length > 0 then
             match ForEach filesToDelete removeHandler (s, 0) with
             | ((s, _), some err) => (s, some err)
             | ((s, totalSize), none) => (s.log (.DiskSpaceFreed totalSize), none)
           else (s, none)) with
    | (s, some err) => ⟨some err, s.context, s.trace⟩
    | (s, none) =>
    match CompactDB s with
    | (s, err) => ⟨err, s.context, s.trace⟩

/-! ## `aptly mirror drop` -/

/-- The command `aptly mirror drop`; `force` is the value of the flag
`-force`. -/
def aptlyMirrorDrop (args : List String) (force : Bool) (context : Context) : Outcome :=
  match args with
  | [name] =>
    match ByName name ⟨context, []⟩ with
    | (s, .error err) => ⟨some (Errorf "unable to drop: " err), s.context, s.trace⟩
    | (s, .ok repo) =>
      match (if !force then
               match ByRemoteRepoSource repo s with
               | (s, snapshots) =>
                 if snapshots.length > 0 then
                   (s, some (GoError.mk "won't delete mirror with snapshots, use -force to override"))
                 else (s, none)
             else (s, none)) with
      | (s, some err) => ⟨some err, s.context, s.trace⟩
      | (s, none) =>
        match Drop repo s with
        | (s, some err) => ⟨some (Errorf "unable to drop: " err), s.context, s.trace⟩
        | (s, none) => ⟨none, s.context, s.trace⟩
  | _ => ⟨none, context, []⟩

/-! ## Closed forms of the loops -/

/-- What the mark phase reads of a mirror, local repository or snapshot. -/
structure Entry where
  name : String
  loadErr : Option GoError
  refs : Option PackageRefList

/-- The entry of a mirror. -/
def RemoteRepo.entry (r : RemoteRepo) : Entry :=
  ⟨r.Name, r.loadErr, r.packageRefs⟩

/-- The entry of a local repository. -/
def LocalRepo.entry (r : LocalRepo) : Entry :=
  ⟨r.Name, r.loadErr, r.packageRefs⟩

/-- The entry of a snapshot. -/
def Snapshot.entry (r : Snapshot) : Entry :=
  ⟨r.Name, r.loadErr, some r.packageRefs⟩

/-- The entities of the three collections, in the order the command visits
them. -/
def entries (c : Context) : List Entry :=
  c.remoteRepos.map RemoteRepo.entry ++ c.localRepos.map LocalRepo.entry ++
    c.snapshots.map Snapshot.entry

/-- The closure of the mark phase on an entry: the common form of the three
closures passed to `ForEach`. -/
def entryHandler (e : Entry) (st : State × PackageRefList) :
    (State × PackageRefList) × Option GoError :=
  match e.loadErr with
  | some err => ((st.1.log (.LoadComplete e.name (some err)), st.2), some err)
  | none =>
    match e.refs with
    | some refs => ((st.1.log (.LoadComplete e.name none), st.2.Merge refs), none)
    | none => ((st.1.log (.LoadComplete e.name none), st.2), none)

/-- The first load error among the entries. -/
def loadFailure : List Entry → Option GoError
  | [] => none
  | e :: l =>
    match e.loadErr with
    | some err => some err
    | none => loadFailure l

/-- The `LoadComplete` calls of the mark phase: one for each entry up to and
including the first that fails. -/
def loadTrace : List Entry → List Event
  | [] => []
  | e :: l =>
    match e.loadErr with
    | some err => [.LoadComplete e.name (some err)]
    | none => .LoadComplete e.name none :: loadTrace l

/-- The reference list the mark phase accumulates. -/
def mergeRefs : List Entry → PackageRefList → PackageRefList
  | [], acc => acc
  | e :: l, acc =>
    match e.loadErr with
    | some _ => acc
    | none =>
      match e.refs with
      | some refs => mergeRefs l (acc.Merge refs)
      | none => mergeRefs l acc

/-- The context with another database. -/
def withDb (c : Context) (d : Database) : Context :=
  { c with database := d }

/-- The context with other files in the package pool. -/
def withPool (c : Context) (pool : List PoolFile) : Context :=
  { c with packagePool := pool }

/-- The first error among the deletions of the keys. -/
def deleteFailure (f : Key → Option GoError) : List Key → Option GoError
  | [] => none
  | k :: l =>
    match f k with
    | some err => some err
    | none => deleteFailure f l

/-- The `DeleteByKey` calls of the metadata sweep. -/
def deleteTrace (f : Key → Option GoError) : List Key → List Event
  | [] => []
  | k :: l =>
    match f k with
    | some err => [.DeleteByKey k (some err)]
    | none => .DeleteByKey k none :: deleteTrace f l

/-- The keys whose deletion was issued with success. -/
def deleteIssued (f : Key → Option GoError) : List Key → List Key
  | [] => []
  | k :: l =>
    match f k with
    | some _ => []
    | none => k :: deleteIssued f l

/-- The first error of the loop that collects the referenced files. -/
def refFailure (pk : List Package) : List Key → Option GoError
  | [] => none
  | k :: l =>
    match pk.find? (fun p => decide (p.key = k)) with
    | none => some ErrNotFound
    | some p =>
      match p.filesErr with
      | some err => some err
      | none => refFailure pk l

/-- The calls of the loop that collects the referenced files. -/
def refTrace (pk : List Package) : List Key → List Event
  | [] => []
  | k :: l =>
    match pk.find? (fun p => decide (p.key = k)) with
    | none => [.ByKey k (some ErrNotFound)]
    | some p =>
      match p.filesErr with
      | some err => [.ByKey k none, .PackageFilepathList p.key (some err)]
      | none => .ByKey k none :: .PackageFilepathList p.key none :: refTrace pk l

/-- The paths the loop collects. -/
def refPaths (pk : List Package) : List Key → List Path
  | [] => []
  | k :: l =>
    match pk.find? (fun p => decide (p.key = k)) with
    | none => []
    | some p =>
      match p.filesErr with
      | some _ => []
      | none => p.files ++ refPaths pk l

/-- The first error of the loop over `filesToDelete`. -/
def removeFailure (f : Path → Option GoError) : List PoolFile → List Path → Option GoError
  | _, [] => none
  | pool, p :: l =>
    match f p with
    | some err => some err
    | none =>
      match pool.find? (fun g => decide (g.path = p)) with
      | none => some ErrNotExist
      | some _ => removeFailure f (pool.filter (fun g => decide (g.path ≠ p))) l

/-- The `Remove` calls of the loop over `filesToDelete`. -/
def removeTrace (f : Path → Option GoError) : List PoolFile → List Path → List Event
  | _, [] => []
  | pool, p :: l =>
    match f p with
    | some err => [.Remove p 0 (some err)]
    | none =>
      match pool.find? (fun g => decide (g.path = p)) with
      | none => [.Remove p 0 (some ErrNotExist)]
      | some g =>
        .Remove p g.size none :: removeTrace f (pool.filter (fun g => decide (g.path ≠ p))) l

/-- The package pool after the loop over `filesToDelete`. -/
def removePool (f : Path → Option GoError) : List PoolFile → List Path → List PoolFile
  | pool, [] => pool
  | pool, p :: l =>
    match f p with
    | some _ => pool
    | none =>
      match pool.find? (fun g => decide (g.path = p)) with
      | none => pool
      | some _ => removePool f (pool.filter (fun g => decide (g.path ≠ p))) l

/-- The value of `totalSize` after the loop over `filesToDelete`. -/
def removeTotal (f : Path → Option GoError) : List PoolFile → List Path → Int → Int
  | _, [], total => total
  | pool, p :: l, total =>
    match f p with
    | some _ => total
    | none =>
      match pool.find? (fun g => decide (g.path = p)) with
      | none => total
      | some g =>
        removeTotal f (pool.filter (fun g => decide (g.path ≠ p))) l (wrapInt64 (total + g.size))

/-- The sweeps of `aptly db cleanup`, from `StartBatch` on, with each loop replaced
by its closed form: `tr` holds the calls of the mark phase, `live` is
`existingPackageRefs` and `toDelete` the list of that name. -/
def sweepOutcome (c : Context) (tr : List Event) (live toDelete : PackageRefList) : Outcome :=
  let t1 := tr ++ [.StartBatch] ++ deleteTrace c.deleteByKeyErr toDelete.Refs
  let issued := deleteIssued c.deleteByKeyErr toDelete.Refs
  match deleteFailure c.deleteByKeyErr toDelete.Refs with
  | some err => ⟨some err, withDb c ⟨c.database.packages, some issued⟩, t1⟩
  | none =>
  match c.finishBatchErr with
  | some err =>
    ⟨some (Errorf "unable to write to DB: " err), withDb c ⟨c.database.packages, some issued⟩,
      t1 ++ [.FinishBatch (some err)]⟩
  | none =>
  let pk := c.database.packages.filter (fun p => decide (p.key ∉ issued))
  let c2 := withDb c ⟨pk, none⟩
  let t2 := t1 ++ [.FinishBatch none] ++ refTrace pk live.Refs
  match refFailure pk live.Refs with
  | some err => ⟨some err, c2, t2⟩
  | none =>
  let referencedFiles := sortStrings (refPaths pk live.Refs)
  match c.filepathListErr with
  | some err =>
    ⟨some (Errorf "unable to collect file paths: " err), c2, t2 ++ [.PoolFilepathList (some err)]⟩
  | none =>
  let filesToDelete := StrSlicesSubstract (c.packagePool.map PoolFile.path) referencedFiles
  let t3 := t2 ++ [.PoolFilepathList none] ++ removeTrace c.removeErr c.packagePool filesToDelete
  let c3 := withPool c2 (removePool c.removeErr c.packagePool filesToDelete)
  match removeFailure c.removeErr c.packagePool filesToDelete with
  | some err => ⟨some err, c3, t3⟩
  | none =>
  let t4 :=
    if filesToDelete.length > 0 then
      t3 ++ [.DiskSpaceFreed (removeTotal c.removeErr c.packagePool filesToDelete 0)]
    else t3
  ⟨c.compactDBErr, c3, t4 ++ [.CompactDB c.compactDBErr]⟩

/-- The command `aptly db cleanup` without arguments, with each loop replaced by
its closed form. -/
def cleanupOutcome (c : Context) : Outcome :=
  match loadFailure (entries c) with
  | some err => ⟨some err, c, loadTrace (entries c)⟩
  | none =>
    sweepOutcome c (loadTrace (entries c)) (mergeRefs (entries c) NewPackageRefList)
      ((AllPackageRefs ⟨c, []⟩).Substract (mergeRefs (entries c) NewPackageRefList))

/-! ## The quantities the properties speak of -/

/-- A key is live when it is in the reference list of a mirror, of a local
repository or of a snapshot. -/
def Live (c : Context) (k : Key) : Prop :=
  (∃ repo ∈ c.remoteRepos, ∃ refs, repo.RefList = some refs ∧ k ∈ refs.Refs) ∨
  (∃ repo ∈ c.localRepos, ∃ refs, repo.RefList = some refs ∧ k ∈ refs.Refs) ∨
  (∃ snapshot ∈ c.snapshots, k ∈ snapshot.RefList.Refs)

/-- The value of `existingPackageRefs` once the mark phase has gone through. -/
def existingPackageRefs (c : Context) : PackageRefList :=
  mergeRefs (entries c) NewPackageRefList

/-- The value of `toDelete`. -/
def toDelete (c : Context) : PackageRefList :=
  (AllPackageRefs ⟨c, []⟩).Substract (existingPackageRefs c)

/-- The value of `referencedFiles` after `sort.Strings`. -/
def referencedFiles (c : Context) : List Path :=
  sortStrings (refPaths c.database.packages (existingPackageRefs c).Refs)

/-- The value of `filesToDelete`. -/
def filesToDelete (c : Context) : List Path :=
  StrSlicesSubstract (c.packagePool.map PoolFile.path) (referencedFiles c)

/-! ## Example contexts -/

/-- A storage layer in which no call fails, around the given collections,
package records and pool files. -/
def healthyContext (remoteRepos : List RemoteRepo) (localRepos : List LocalRepo)
    (snapshots : List Snapshot) (packages : List Package) (pool : List PoolFile) : Context :=
  { remoteRepos := remoteRepos
    localRepos := localRepos
    snapshots := snapshots
    database := ⟨packages, none⟩
    packagePool := pool
    deleteByKeyErr := fun _ => none
    finishBatchErr := none
    compactDBErr := none
    filepathListErr := none
    removeErr := fun _ => none
    dropErr := fun _ => none }

/-- The mirror `wheezy-main` keeps the package `[1]`, and the snapshot `snap1`
was made from it; the store also holds the package `[2]`, which nothing
references, and the pool the file of each package and an orphan. -/
def exampleContext : Context :=
  healthyContext [⟨"wheezy-main", none, some ⟨[[1]]⟩⟩] []
    [⟨"snap1", ["wheezy-main"], none, ⟨[[1]]⟩⟩]
    [⟨[1], none, ["pool/a".toList]⟩, ⟨[2], none, ["pool/b".toList]⟩]
    [⟨"pool/a".toList, 10⟩, ⟨"pool/b".toList, 20⟩, ⟨"pool/orphan".toList, 5⟩]

/-- The example context with a snapshot that fails to load. -/
def failingLoadContext : Context :=
  healthyContext [⟨"wheezy-main", none, some ⟨[[1]]⟩⟩] []
    [⟨"snap1", ["wheezy-main"], some ⟨"snapshot snap1: unexpected end of data"⟩, ⟨[[1]]⟩⟩]
    [⟨[1], none, ["pool/a".toList]⟩, ⟨[2], none, ["pool/b".toList]⟩]
    [⟨"pool/a".toList, 10⟩, ⟨"pool/b".toList, 20⟩, ⟨"pool/orphan".toList, 5⟩]

/-- The example context with a database that cannot commit a batch. -/
def commitFailureContext : Context :=
  { exampleContext with finishBatchErr := some ⟨"no space left on device"⟩ }

/-- What a command returns when the recorded call has failed: the error of the
call as it is, except after `FinishBatch`, `packagePool.FilepathList`, `ByName`
and `Drop`, whose error the command wraps with `fmt.Errorf`. -/
def Event.propagated : Event → Option GoError
  | .FinishBatch (some err) => some (Errorf "unable to write to DB: " err)
  | .PoolFilepathList (some err) => some (Errorf "unable to collect file paths: " err)
  | .ByName _ (some err) => some (Errorf "unable to drop: " err)
  | .Drop _ (some err) => some (Errorf "unable to drop: " err)
  | ev => ev.err?

/-- The package records left in the store when the batch is committed. -/
def survivors (c : Context) : List Package :=
  c.database.packages.filter (fun p => decide (p.key ∉ (toDelete c).Refs))

/-- The mirror keeps the package `[1]`; the store also holds the packages `[2]`
and `[3]`, which nothing references, and the deletion of `[3]` fails. -/
def deleteFailureContext : Context :=
  { healthyContext [⟨"wheezy-main", none, some ⟨[[1]]⟩⟩] [] []
      [⟨[1], none, ["pool/a".toList]⟩, ⟨[2], none, ["pool/b".toList]⟩,
        ⟨[3], none, ["pool/c".toList]⟩]
      [⟨"pool/a".toList, 10⟩] with
    deleteByKeyErr := fun k => if k = [3] then some ⟨"leveldb: closed"⟩ else none }

theorem ForEach_map {α β σ : Type} (f : α → β) (h : β → σ → σ × Option GoError) :
    ∀ (l : List α) (s : σ), ForEach (l.map f) h s = ForEach l (fun x => h (f x)) s
  | [], s => rfl
  | x :: l, s => by
    simp only [List.map_cons, ForEach]
    cases hx : h (f x) s with
    | mk s1 r =>
      cases r with
      | none => simpa using ForEach_map f h l s1
      | some e => rfl

theorem ForEach_append {α σ : Type} (h : α → σ → σ × Option GoError) :
    ∀ (l1 l2 : List α) (s : σ),
      ForEach (l1 ++ l2) h s =
        match ForEach l1 h s with
        | (s1, none) => ForEach l2 h s1
        | (s1, some e) => (s1, some e)
  | [], l2, s => rfl
  | x :: l1, l2, s => by
    simp only [List.cons_append, ForEach]
    cases hx : h x s with
    | mk s1 r =>
      cases r with
      | none => simpa using ForEach_append h l1 l2 s1
      | some e => rfl

theorem remoteRepoHandler_eq : remoteRepoHandler = fun r => entryHandler r.entry := by
  funext r st
  rcases r with ⟨n, _ | e, _ | refs⟩ <;> rfl

theorem localRepoHandler_eq : localRepoHandler = fun r => entryHandler r.entry := by
  funext r st
  rcases r with ⟨n, _ | e, _ | refs⟩ <;> rfl

theorem snapshotHandler_eq : snapshotHandler = fun r => entryHandler r.entry := by
  funext r st
  rcases r with ⟨n, src, _ | e, refs⟩ <;> rfl

theorem ForEach_entryHandler (c : Context) :
    ∀ (l : List Entry) (tr : List Event) (acc : PackageRefList),
      ForEach l entryHandler (⟨c, tr⟩, acc) =
        ((⟨c, tr ++ loadTrace l⟩, mergeRefs l acc), loadFailure l)
  | [], tr, acc => by simp [ForEach, loadTrace, mergeRefs, loadFailure]
  | e :: l, tr, acc => by
    rcases e with ⟨n, _ | err, _ | refs⟩ <;>
      simp [ForEach, entryHandler, loadTrace, mergeRefs, loadFailure, State.log,
        ForEach_entryHandler c l]

theorem ForEach_DeleteByKey (c : Context) (pk : List Package) :
    ∀ (l : List Key) (b : List Key) (tr : List Event),
      ForEach l DeleteByKey ⟨withDb c ⟨pk, some b⟩, tr⟩ =
        (⟨withDb c ⟨pk, some (b ++ deleteIssued c.deleteByKeyErr l)⟩,
          tr ++ deleteTrace c.deleteByKeyErr l⟩, deleteFailure c.deleteByKeyErr l)
  | [], b, tr => by simp [ForEach, deleteIssued, deleteTrace, deleteFailure]
  | k :: l, b, tr => by
    cases hk : c.deleteByKeyErr k with
    | some err =>
      simp [ForEach, DeleteByKey, withDb, hk, deleteIssued, deleteTrace, deleteFailure, State.log]
    | none =>
      have ih := ForEach_DeleteByKey c pk l (b ++ [k]) (tr ++ [.DeleteByKey k none])
      simp only [withDb] at ih ⊢
      simp [ForEach, DeleteByKey, hk, deleteIssued, deleteTrace, deleteFailure, ih]

theorem ForEach_referencedFilesHandler (c : Context) :
    ∀ (l : List Key) (tr : List Event) (acc : List Path),
      ForEach l referencedFilesHandler (⟨c, tr⟩, acc) =
        ((⟨c, tr ++ refTrace c.database.packages l⟩, acc ++ refPaths c.database.packages l),
          refFailure c.database.packages l)
  | [], tr, acc => by simp [ForEach, refTrace, refPaths, refFailure]
  | k :: l, tr, acc => by
    cases hk : c.database.packages.find? (fun p => decide (p.key = k)) with
    | none =>
      simp [ForEach, referencedFilesHandler, ByKey, hk, refTrace, refPaths, refFailure, State.log]
    | some p =>
      cases hp : p.filesErr with
      | some err =>
        simp [ForEach, referencedFilesHandler, ByKey, Package.FilepathList, hk, hp, refTrace,
          refPaths, refFailure, State.log]
      | none =>
        simp [ForEach, referencedFilesHandler, ByKey, Package.FilepathList, hk, hp, refTrace,
          refPaths, refFailure, State.log, ForEach_referencedFilesHandler c l]

theorem ForEach_removeHandler (c : Context) :
    ∀ (l : List Path) (pool : List PoolFile) (tr : List Event) (total : Int),
      ForEach l removeHandler (⟨withPool c pool, tr⟩, total) =
        ((⟨withPool c (removePool c.removeErr pool l), tr ++ removeTrace c.removeErr pool l⟩,
          removeTotal c.removeErr pool l total), removeFailure c.removeErr pool l)
  | [], pool, tr, total => by
    simp [ForEach, removeTrace, removePool, removeTotal, removeFailure]
  | p :: l, pool, tr, total => by
    cases hp : c.removeErr p with
    | some err =>
      simp [ForEach, removeHandler, Remove, withPool, hp, removeTrace, removePool, removeTotal,
        removeFailure, State.log]
    | none =>
      cases hf : pool.find? (fun g => decide (g.path = p)) with
      | none =>
        simp [ForEach, removeHandler, Remove, withPool, hp, hf, removeTrace, removePool,
          removeTotal, removeFailure, State.log]
      | some g =>
        have ih := ForEach_removeHandler c l (pool.filter (fun g => decide (g.path ≠ p)))
          (tr ++ [.Remove p g.size none]) (wrapInt64 (total + g.size))
        simp only [withPool] at ih ⊢
        simpa [ForEach, removeHandler, Remove, hp, hf, removeTrace, removePool, removeTotal,
          removeFailure] using ih

theorem loadFailure_append : ∀ (l1 l2 : List Entry),
    loadFailure (l1 ++ l2) =
      match loadFailure l1 with
      | some err => some err
      | none => loadFailure l2
  | [], l2 => rfl
  | e :: l1, l2 => by
    rcases e with ⟨n, _ | err, refs⟩ <;> simp [loadFailure, loadFailure_append l1 l2]

theorem loadTrace_append : ∀ (l1 l2 : List Entry),
    loadTrace (l1 ++ l2) =
      match loadFailure l1 with
      | some _ => loadTrace l1
      | none => loadTrace l1 ++ loadTrace l2
  | [], l2 => rfl
  | e :: l1, l2 => by
    rcases e with ⟨n, _ | err, refs⟩
    · have ih := loadTrace_append l1 l2
      cases h : loadFailure l1 <;> simp [loadTrace, loadFailure, h] at ih ⊢ <;> exact ih
    · simp [loadFailure, loadTrace]

theorem mergeRefs_append : ∀ (l1 l2 : List Entry) (acc : PackageRefList),
    mergeRefs (l1 ++ l2) acc =
      match loadFailure l1 with
      | some _ => mergeRefs l1 acc
      | none => mergeRefs l2 (mergeRefs l1 acc)
  | [], l2, acc => rfl
  | e :: l1, l2, acc => by
    rcases e with ⟨n, _ | err, _ | refs⟩ <;>
      simp [loadFailure, mergeRefs, mergeRefs_append l1 l2]

theorem ForEach_remoteRepoHandler (c : Context) (tr : List Event) (acc : PackageRefList) :
    ForEach c.remoteRepos remoteRepoHandler (⟨c, tr⟩, acc) =
      ((⟨c, tr ++ loadTrace (c.remoteRepos.map RemoteRepo.entry)⟩,
        mergeRefs (c.remoteRepos.map RemoteRepo.entry) acc),
        loadFailure (c.remoteRepos.map RemoteRepo.entry)) := by
  rw [← ForEach_entryHandler, ForEach_map, remoteRepoHandler_eq]

theorem ForEach_localRepoHandler (c : Context) (tr : List Event) (acc : PackageRefList) :
    ForEach c.localRepos localRepoHandler (⟨c, tr⟩, acc) =
      ((⟨c, tr ++ loadTrace (c.localRepos.map LocalRepo.entry)⟩,
        mergeRefs (c.localRepos.map LocalRepo.entry) acc),
        loadFailure (c.localRepos.map LocalRepo.entry)) := by
  rw [← ForEach_entryHandler, ForEach_map, localRepoHandler_eq]

theorem ForEach_snapshotHandler (c : Context) (tr : List Event) (acc : PackageRefList) :
    ForEach c.snapshots snapshotHandler (⟨c, tr⟩, acc) =
      ((⟨c, tr ++ loadTrace (c.snapshots.map Snapshot.entry)⟩,
        mergeRefs (c.snapshots.map Snapshot.entry) acc),
        loadFailure (c.snapshots.map Snapshot.entry)) := by
  rw [← ForEach_entryHandler, ForEach_map, snapshotHandler_eq]

theorem ForEach_DeleteByKey_StartBatch (c : Context) (tr : List Event) (l : List Key) :
    ForEach l DeleteByKey (StartBatch ⟨c, tr⟩) =
      (⟨withDb c ⟨c.database.packages, some (deleteIssued c.deleteByKeyErr l)⟩,
        tr ++ [.StartBatch] ++ deleteTrace c.deleteByKeyErr l⟩, deleteFailure c.deleteByKeyErr l) := by
  have h := ForEach_DeleteByKey c c.database.packages l [] (tr ++ [.StartBatch])
  simpa [StartBatch, withDb] using h

theorem FinishBatch_pending (c : Context) (pk : List Package) (b : List Key) (tr : List Event) :
    FinishBatch ⟨withDb c ⟨pk, some b⟩, tr⟩ =
      match c.finishBatchErr with
      | some err => (⟨withDb c ⟨pk, some b⟩, tr ++ [.FinishBatch (some err)]⟩, some err)
      | none =>
        (⟨withDb c ⟨pk.filter (fun p => decide (p.key ∉ b)), none⟩, tr ++ [.FinishBatch none]⟩,
          none) := by
  cases h : c.finishBatchErr <;> simp [FinishBatch, withDb, h, State.log]

theorem ForEach_removeHandler_pool (c : Context) (l : List Path) (tr : List Event) (total : Int) :
    ForEach l removeHandler (⟨c, tr⟩, total) =
      ((⟨withPool c (removePool c.removeErr c.packagePool l),
          tr ++ removeTrace c.removeErr c.packagePool l⟩,
        removeTotal c.removeErr c.packagePool l total),
        removeFailure c.removeErr c.packagePool l) :=
  ForEach_removeHandler c l c.packagePool tr total

theorem PoolFilepathList_mk (c : Context) (tr : List Event) :
    PoolFilepathList ⟨c, tr⟩ =
      match c.filepathListErr with
      | some err => (⟨c, tr ++ [.PoolFilepathList (some err)]⟩, .error err)
      | none => (⟨c, tr ++ [.PoolFilepathList none]⟩, .ok (c.packagePool.map PoolFile.path)) := by
  cases h : c.filepathListErr <;> simp [PoolFilepathList, h, State.log]

theorem sweep_eq (c : Context) (tr : List Event) (live toDelete : PackageRefList) :
    (match ForEach toDelete.Refs DeleteByKey (StartBatch ⟨c, tr⟩) with
      | (s, some err) => (⟨some err, s.context, s.trace⟩ : Outcome)
      | (s, none) =>
      match FinishBatch s with
      | (s, some err) => ⟨some (Errorf "unable to write to DB: " err), s.context, s.trace⟩
      | (s, none) =>
      match ForEach live.Refs referencedFilesHandler (s, []) with
      | ((s, _), some err) => ⟨some err, s.context, s.trace⟩
      | ((s, referencedFiles), none) =>
      match PoolFilepathList s with
      | (s, .error err) =>
        ⟨some (Errorf "unable to collect file paths: " err), s.context, s.trace⟩
      | (s, .ok existingFiles) =>
      match (if (StrSlicesSubstract existingFiles (sortStrings referencedFiles)).length > 0 then
               match ForEach (StrSlicesSubstract existingFiles (sortStrings referencedFiles))
                  removeHandler (s, 0) with
               | ((s, _), some err) => (s, some err)
               | ((s, totalSize), none) => (s.log (.DiskSpaceFreed totalSize), none)
             else (s, none)) with
      | (s, some err) => ⟨some err, s.context, s.trace⟩
      | (s, none) =>
      match CompactDB s with
      | (s, err) => ⟨err, s.context, s.trace⟩) = sweepOutcome c tr live toDelete := by
  unfold sweepOutcome
  simp only [ForEach_DeleteByKey_StartBatch]
  cases h4 : deleteFailure c.deleteByKeyErr toDelete.Refs with
  | some e => simp
  | none =>
    simp only [FinishBatch_pending]
    cases h5 : c.finishBatchErr with
    | some e => simp
    | none =>
      simp only [ForEach_referencedFilesHandler]
      simp only [withDb, withPool, List.nil_append]
      cases h6 : refFailure (c.database.packages.filter
          (fun p => decide (p.key ∉ deleteIssued c.deleteByKeyErr toDelete.Refs)))
          live.Refs with
      | some e => simp
      | none =>
        simp only [PoolFilepathList_mk]
        cases h7 : c.filepathListErr with
        | some e => simp
        | none =>
          simp only []
          cases h8 : StrSlicesSubstract (c.packagePool.map PoolFile.path)
              (sortStrings (refPaths (c.database.packages.filter
                (fun p => decide (p.key ∉ deleteIssued c.deleteByKeyErr toDelete.Refs)))
                live.Refs)) with
          | nil =>
            simp [removeFailure, removeTrace, removePool, removeTotal, CompactDB, State.log]
          | cons p l =>
            simp only [ForEach_removeHandler_pool, List.length_cons, gt_iff_lt,
              Nat.zero_lt_succ, if_true]
            cases h9 : removeFailure c.removeErr c.packagePool (p :: l) with
            | some e => simp [withPool]
            | none => simp [withPool, CompactDB, State.log]

theorem aptlyDbCleanup_nil (c : Context) : aptlyDbCleanup [] c = cleanupOutcome c := by
  unfold aptlyDbCleanup cleanupOutcome
  simp only [List.length_nil, ne_eq, not_true_eq_false, if_false, ForEach_remoteRepoHandler,
    entries, loadFailure_append, loadTrace_append, mergeRefs_append, List.nil_append]
  cases h1 : loadFailure (c.remoteRepos.map RemoteRepo.entry) with
  | some e => simp
  | none =>
    simp only [ForEach_localRepoHandler]
    cases h2 : loadFailure (c.localRepos.map LocalRepo.entry) with
    | some e => simp
    | none =>
      simp only [ForEach_snapshotHandler]
      cases h3 : loadFailure (c.snapshots.map Snapshot.entry) with
      | some e => simp
      | none =>
        simp only []
        exact sweep_eq c _ _ _

/-! ## The merge scan -/

theorem StrSlicesSubstract_sublist : ∀ (l r : List Path), (StrSlicesSubstract l r).Sublist l
  | [], r => by simp [StrSlicesSubstract]
  | x :: l, r => by
    unfold StrSlicesSubstract
    split
    · exact List.Sublist.refl _
    · split
      · exact (StrSlicesSubstract_sublist l _).cons _
      · exact (StrSlicesSubstract_sublist l _).cons₂ _

theorem loadFailure_eq_none_iff : ∀ (l : List Entry),
    loadFailure l = none ↔ ∀ e ∈ l, e.loadErr = none
  | [] => by simp [loadFailure]
  | e :: l => by
    rcases e with ⟨n, _ | err, refs⟩ <;> simp [loadFailure, loadFailure_eq_none_iff l]

theorem loadTrace_of_ok : ∀ (l : List Entry), loadFailure l = none →
    ∀ ev ∈ loadTrace l, ∃ n, ev = Event.LoadComplete n none
  | [], _, ev, h => by simp [loadTrace] at h
  | e :: l, hl, ev, h => by
    rcases e with ⟨n, _ | err, refs⟩
    · simp only [loadTrace, List.mem_cons] at h
      simp only [loadFailure] at hl
      rcases h with h | h
      · exact ⟨n, h⟩
      · exact loadTrace_of_ok l hl ev h
    · simp [loadFailure] at hl

theorem loadTrace_of_failure : ∀ (l : List Entry) (err : GoError), loadFailure l = some err →
    ∃ name pre, loadTrace l = pre ++ [Event.LoadComplete name (some err)] ∧
      ∀ ev ∈ pre, ∃ n, ev = Event.LoadComplete n none
  | [], err, h => by simp [loadFailure] at h
  | e :: l, err, h => by
    rcases e with ⟨n, _ | err1, refs⟩
    · simp only [loadFailure] at h
      obtain ⟨name, pre, h1, h2⟩ := loadTrace_of_failure l err h
      refine ⟨name, Event.LoadComplete n none :: pre, ?_, ?_⟩
      · simp [loadTrace, h1]
      · intro ev hev
        rcases List.mem_cons.1 hev with h3 | h3
        · exact ⟨n, h3⟩
        · exact h2 ev h3
    · simp only [loadFailure, Option.some.injEq] at h
      subst h
      exact ⟨n, [], by simp [loadTrace], by simp⟩

theorem mem_Merge (l r : PackageRefList) (k : Key) :
    k ∈ (l.Merge r).Refs ↔ k ∈ l.Refs ∨ k ∈ r.Refs := by
  simp [PackageRefList.Merge]

theorem mem_Substract (l r : PackageRefList) (k : Key) :
    k ∈ (l.Substract r).Refs ↔ k ∈ l.Refs ∧ k ∉ r.Refs := by
  simp [PackageRefList.Substract]

theorem mem_mergeRefs : ∀ (l : List Entry) (acc : PackageRefList), loadFailure l = none →
    ∀ k, k ∈ (mergeRefs l acc).Refs ↔
      k ∈ acc.Refs ∨ ∃ e ∈ l, ∃ r, e.refs = some r ∧ k ∈ r.Refs
  | [], acc, _, k => by simp [mergeRefs]
  | e :: l, acc, hl, k => by
    rcases e with ⟨n, _ | err, _ | refs⟩
    · simp only [loadFailure] at hl
      simp [mergeRefs, mem_mergeRefs l acc hl k]
    · simp only [loadFailure] at hl
      simp [mergeRefs, mem_mergeRefs l (acc.Merge refs) hl k, mem_Merge, or_assoc]
    · simp [loadFailure] at hl
    · simp [loadFailure] at hl

theorem mem_existingPackageRefs (c : Context) (h : loadFailure (entries c) = none) (k : Key) :
    k ∈ (existingPackageRefs c).Refs ↔ Live c k := by
  unfold existingPackageRefs
  rw [mem_mergeRefs _ _ h]
  simp only [NewPackageRefList, List.not_mem_nil, false_or, entries, List.mem_append,
    List.mem_map, Live, RemoteRepo.RefList, LocalRepo.RefList, Snapshot.RefList]
  constructor
  · rintro ⟨e, ((⟨r, hr, rfl⟩ | ⟨r, hr, rfl⟩) | ⟨r, hr, rfl⟩), refs, h1, h2⟩
    · exact Or.inl ⟨r, hr, refs, h1, h2⟩
    · exact Or.inr (Or.inl ⟨r, hr, refs, h1, h2⟩)
    · simp only [Snapshot.entry, Option.some.injEq] at h1
      exact Or.inr (Or.inr ⟨r, hr, h1 ▸ h2⟩)
  · rintro (⟨r, hr, refs, h1, h2⟩ | ⟨r, hr, refs, h1, h2⟩ | ⟨r, hr, h2⟩)
    · exact ⟨r.entry, Or.inl (Or.inl ⟨r, hr, rfl⟩), refs, h1, h2⟩
    · exact ⟨r.entry, Or.inl (Or.inr ⟨r, hr, rfl⟩), refs, h1, h2⟩
    · exact ⟨r.entry, Or.inr ⟨r, hr, rfl⟩, r.packageRefs, rfl, h2⟩

/-! ## The sweeps -/

theorem mem_deleteTrace (f : Key → Option GoError) : ∀ (l : List Key) (ev : Event),
    ev ∈ deleteTrace f l → ∃ k ∈ l, ev = Event.DeleteByKey k (f k)
  | [], ev, h => by simp [deleteTrace] at h
  | k :: l, ev, h => by
    unfold deleteTrace at h
    split at h
    · rename_i err hk
      simp only [List.mem_singleton] at h
      exact ⟨k, List.mem_cons_self _ _, by rw [h, hk]⟩
    · rename_i hk
      rcases List.mem_cons.1 h with h | h
      · exact ⟨k, List.mem_cons_self _ _, by rw [h, hk]⟩
      · obtain ⟨k1, h1, h2⟩ := mem_deleteTrace f l ev h
        exact ⟨k1, List.mem_cons_of_mem _ h1, h2⟩

theorem deleteFailure_eq_none_iff (f : Key → Option GoError) : ∀ (l : List Key),
    deleteFailure f l = none ↔ ∀ k ∈ l, f k = none
  | [] => by simp [deleteFailure]
  | k :: l => by
    cases hk : f k <;> simp [deleteFailure, hk, deleteFailure_eq_none_iff f l]

theorem deleteIssued_of_ok (f : Key → Option GoError) : ∀ (l : List Key),
    deleteFailure f l = none → deleteIssued f l = l
  | [], _ => rfl
  | k :: l, h => by
    cases hk : f k with
    | none =>
      simp only [deleteFailure, hk] at h
      simp [deleteIssued, hk, deleteIssued_of_ok f l h]
    | some e => simp [deleteFailure, hk] at h

theorem deleteTrace_of_ok (f : Key → Option GoError) : ∀ (l : List Key),
    deleteFailure f l = none → deleteTrace f l = l.map (fun k => Event.DeleteByKey k none)
  | [], _ => rfl
  | k :: l, h => by
    cases hk : f k with
    | none =>
      simp only [deleteFailure, hk] at h
      simp [deleteTrace, hk, deleteTrace_of_ok f l h]
    | some e => simp [deleteFailure, hk] at h

theorem deleteTrace_of_failure (f : Key → Option GoError) : ∀ (l : List Key) (err : GoError),
    deleteFailure f l = some err →
      ∃ k pre, deleteTrace f l = pre ++ [Event.DeleteByKey k (some err)] ∧
        ∀ ev ∈ pre, ∃ k1, ev = Event.DeleteByKey k1 none
  | [], err, h => by simp [deleteFailure] at h
  | k :: l, err, h => by
    cases hk : f k with
    | none =>
      simp only [deleteFailure, hk] at h
      obtain ⟨k1, pre, h1, h2⟩ := deleteTrace_of_failure f l err h
      refine ⟨k1, Event.DeleteByKey k none :: pre, by simp [deleteTrace, hk, h1], ?_⟩
      intro ev hev
      rcases List.mem_cons.1 hev with h3 | h3
      · exact ⟨k, h3⟩
      · exact h2 ev h3
    | some e =>
      simp only [deleteFailure, hk, Option.some.injEq] at h
      subst h
      exact ⟨k, [], by simp [deleteTrace, hk], by simp⟩

theorem mem_refTrace (pk : List Package) : ∀ (l : List Key) (ev : Event),
    ev ∈ refTrace pk l →
      (∃ k r, ev = Event.ByKey k r) ∨ (∃ k r, ev = Event.PackageFilepathList k r)
  | [], ev, h => by simp [refTrace] at h
  | k :: l, ev, h => by
    unfold refTrace at h
    split at h
    · simp only [List.mem_singleton] at h
      exact Or.inl ⟨_, _, h⟩
    · split at h
      · simp only [List.mem_cons, List.mem_singleton, List.not_mem_nil, or_false] at h
        rcases h with h | h
        · exact Or.inl ⟨_, _, h⟩
        · exact Or.inr ⟨_, _, h⟩
      · simp only [List.mem_cons] at h
        rcases h with h | h | h
        · exact Or.inl ⟨_, _, h⟩
        · exact Or.inr ⟨_, _, h⟩
        · exact mem_refTrace pk l ev h

theorem mem_removeTrace (f : Path → Option GoError) : ∀ (l : List Path) (pool : List PoolFile)
    (ev : Event), ev ∈ removeTrace f pool l → ∃ p ∈ l, ∃ n r, ev = Event.Remove p n r
  | [], pool, ev, h => by simp [removeTrace] at h
  | p :: l, pool, ev, h => by
    unfold removeTrace at h
    split at h
    · simp only [List.mem_singleton] at h
      exact ⟨p, List.mem_cons_self _ _, _, _, h⟩
    · split at h
      · simp only [List.mem_singleton] at h
        exact ⟨p, List.mem_cons_self _ _, _, _, h⟩
      · rcases List.mem_cons.1 h with h | h
        · exact ⟨p, List.mem_cons_self _ _, _, _, h⟩
        · obtain ⟨q, h1, h2⟩ := mem_removeTrace f l _ ev h
          exact ⟨q, List.mem_cons_of_mem _ h1, h2⟩

theorem sweepOutcome_trace_cases (c : Context) (tr : List Event) (live td : PackageRefList)
    (ev : Event) (G : Prop) (hT : ev ∈ tr → G) (hSB : ev = Event.StartBatch → G)
    (hD : ev ∈ deleteTrace c.deleteByKeyErr td.Refs → G)
    (hF : ∀ r, ev = Event.FinishBatch r → G)
    (hR : ev ∈ refTrace (c.database.packages.filter (fun p => decide (p.key ∉ td.Refs)))
      live.Refs → G)
    (hPL : ∀ r, ev = Event.PoolFilepathList r → G)
    (hRM : (deleteFailure c.deleteByKeyErr td.Refs = none ∧ c.finishBatchErr = none ∧
        refFailure (c.database.packages.filter (fun p => decide (p.key ∉ td.Refs)))
          live.Refs = none ∧
        c.filepathListErr = none ∧
        ev ∈ removeTrace c.removeErr c.packagePool
          (StrSlicesSubstract (c.packagePool.map PoolFile.path)
            (sortStrings (refPaths
              (c.database.packages.filter (fun p => decide (p.key ∉ td.Refs))) live.Refs)))) → G)
    (hDF : (deleteFailure c.deleteByKeyErr td.Refs = none ∧ c.finishBatchErr = none ∧
        refFailure (c.database.packages.filter (fun p => decide (p.key ∉ td.Refs)))
          live.Refs = none ∧
        c.filepathListErr = none ∧
        removeFailure c.removeErr c.packagePool
          (StrSlicesSubstract (c.packagePool.map PoolFile.path)
            (sortStrings (refPaths
              (c.database.packages.filter (fun p => decide (p.key ∉ td.Refs))) live.Refs))) =
          none ∧
        ev = Event.DiskSpaceFreed (removeTotal c.removeErr c.packagePool
          (StrSlicesSubstract (c.packagePool.map PoolFile.path)
            (sortStrings (refPaths
              (c.database.packages.filter (fun p => decide (p.key ∉ td.Refs))) live.Refs)))
          0)) → G)
    (hC : ∀ r, ev = Event.CompactDB r → G)
    (h : ev ∈ (sweepOutcome c tr live td).trace) : G := by
  unfold sweepOutcome at h
  simp only [] at h
  split at h
  · simp only [List.mem_append, List.mem_singleton, or_assoc] at h
    obtain h | h | h := h
    exacts [hT h, hSB h, hD h]
  · rename_i hdel
    rw [deleteIssued_of_ok _ _ hdel] at h
    split at h
    · simp only [List.mem_append, List.mem_singleton, or_assoc] at h
      obtain h | h | h | h := h
      exacts [hT h, hSB h, hD h, hF _ h]
    · rename_i hfin
      split at h
      · simp only [List.mem_append, List.mem_singleton, or_assoc] at h
        obtain h | h | h | h | h := h
        exacts [hT h, hSB h, hD h, hF _ h, hR h]
      · rename_i hrf
        split at h
        · simp only [List.mem_append, List.mem_singleton, or_assoc] at h
          obtain h | h | h | h | h | h := h
          exacts [hT h, hSB h, hD h, hF _ h, hR h, hPL _ h]
        · rename_i hfl
          split at h
          · simp only [List.mem_append, List.mem_singleton, or_assoc] at h
            obtain h | h | h | h | h | h | h := h
            exacts [hT h, hSB h, hD h, hF _ h, hR h, hPL _ h, hRM ⟨hdel, hfin, hrf, hfl, h⟩]
          · rename_i hrm
            simp only [List.mem_append, List.mem_singleton] at h
            obtain h | h := h
            · split at h
              · simp only [List.mem_append, List.mem_singleton, or_assoc] at h
                obtain h | h | h | h | h | h | h | h := h
                exacts [hT h, hSB h, hD h, hF _ h, hR h, hPL _ h,
                  hRM ⟨hdel, hfin, hrf, hfl, h⟩, hDF ⟨hdel, hfin, hrf, hfl, hrm, h⟩]
              · simp only [List.mem_append, List.mem_singleton, or_assoc] at h
                obtain h | h | h | h | h | h | h := h
                exacts [hT h, hSB h, hD h, hF _ h, hR h, hPL _ h,
                  hRM ⟨hdel, hfin, hrf, hfl, h⟩]
            · exact hC _ h

/-- Everything a run without error went through, and what it left behind. -/
theorem sweepOutcome_ok (c : Context) (tr : List Event) (live td : PackageRefList)
    (h : (sweepOutcome c tr live td).err = none) :
    deleteFailure c.deleteByKeyErr td.Refs = none ∧ c.finishBatchErr = none ∧
      refFailure (c.database.packages.filter (fun p => decide (p.key ∉ td.Refs)))
        live.Refs = none ∧
      c.filepathListErr = none ∧
      removeFailure c.removeErr c.packagePool
        (StrSlicesSubstract (c.packagePool.map PoolFile.path)
          (sortStrings (refPaths
            (c.database.packages.filter (fun p => decide (p.key ∉ td.Refs))) live.Refs))) = none ∧
      c.compactDBErr = none ∧
      (sweepOutcome c tr live td).context =
        withPool (withDb c ⟨c.database.packages.filter (fun p => decide (p.key ∉ td.Refs)), none⟩)
          (removePool c.removeErr c.packagePool
            (StrSlicesSubstract (c.packagePool.map PoolFile.path)
              (sortStrings (refPaths
                (c.database.packages.filter (fun p => decide (p.key ∉ td.Refs))) live.Refs)))) ∧
      ∃ freed post,
        (sweepOutcome c tr live td).trace =
          tr ++ [Event.StartBatch] ++ td.Refs.map (fun k => Event.DeleteByKey k none) ++
            [Event.FinishBatch none] ++
            refTrace (c.database.packages.filter (fun p => decide (p.key ∉ td.Refs))) live.Refs ++
            [Event.PoolFilepathList none] ++
            removeTrace c.removeErr c.packagePool
              (StrSlicesSubstract (c.packagePool.map PoolFile.path)
                (sortStrings (refPaths
                  (c.database.packages.filter (fun p => decide (p.key ∉ td.Refs)))
                  live.Refs))) ++ freed ++ post ∧
        post = [Event.CompactDB none] ∧
        (freed = [] ∨ ∃ n, freed = [Event.DiskSpaceFreed n]) := by
  unfold sweepOutcome at h ⊢
  try simp only [] at h ⊢
  split at h
  · simp at h
  · rename_i hdel
    rw [hdel]
    simp only [deleteIssued_of_ok _ _ hdel, deleteTrace_of_ok _ _ hdel] at h ⊢
    split at h
    · simp at h
    · rename_i hfin
      rw [hfin]
      try simp only [] at h ⊢
      split at h
      · simp at h
      · rename_i hrf
        rw [hrf]
        try simp only [] at h ⊢
        split at h
        · simp at h
        · rename_i hfl
          rw [hfl]
          try simp only [] at h ⊢
          split at h
          · simp at h
          · rename_i hrm
            rw [hrm]
            try simp only [] at h ⊢
            refine ⟨trivial, trivial, trivial, trivial, trivial, h, trivial, ?_⟩
            rw [h]
            split
            · exact ⟨[Event.DiskSpaceFreed _], [Event.CompactDB none], rfl, rfl, Or.inr ⟨_, rfl⟩⟩
            · exact ⟨[], [Event.CompactDB none], by simp only [List.append_nil], rfl, Or.inl rfl⟩

/-! ## The properties of `aptly db cleanup` -/

theorem not_live_of_mem_toDelete (c : Context) (h : loadFailure (entries c) = none) (k : Key)
    (hk : k ∈ (toDelete c).Refs) : ¬ Live c k := by
  intro hl
  rw [toDelete, mem_Substract] at hk
  exact hk.2 ((mem_existingPackageRefs c h k).2 hl)

/-- C1: a key that is in the reference list of a mirror, of a local repository
or of a snapshot is never passed to `DeleteByKey`, whatever the arguments and
whether the run succeeds or fails. -/
theorem live_key_never_deleted (args : List String) (c : Context) (k : Key) (h : Live c k)
    (r : Option GoError) : Event.DeleteByKey k r ∉ (aptlyDbCleanup args c).trace := by
  cases args with
  | cons a l => simp [aptlyDbCleanup]
  | nil =>
    rw [aptlyDbCleanup_nil]
    unfold cleanupOutcome
    split
    · rename_i err hload
      intro hmem
      obtain ⟨name, pre, h1, h2⟩ := loadTrace_of_failure _ _ hload
      rw [h1, List.mem_append, List.mem_singleton] at hmem
      rcases hmem with hmem | hmem
      · obtain ⟨n, hn⟩ := h2 _ hmem
        cases hn
      · cases hmem
    · rename_i hload
      intro hmem
      refine sweepOutcome_trace_cases c _ _ _ _ False ?_ ?_ ?_ ?_ ?_ ?_ ?_ ?_ ?_ hmem
      · intro h1
        obtain ⟨n, hn⟩ := loadTrace_of_ok _ hload _ h1
        cases hn
      · intro h1
        cases h1
      · intro h1
        obtain ⟨k1, hk1, h2⟩ := mem_deleteTrace _ _ _ h1
        injection h2 with h3 h4
        subst h3
        exact not_live_of_mem_toDelete c hload k hk1 h
      · intro r1 h1
        cases h1
      · intro h1
        rcases mem_refTrace _ _ _ h1 with ⟨_, _, h2⟩ | ⟨_, _, h2⟩ <;> cases h2
      · intro r1 h1
        cases h1
      · rintro ⟨_, _, _, _, h1⟩
        obtain ⟨_, _, _, _, h2⟩ := mem_removeTrace _ _ _ _ h1
        cases h2
      · rintro ⟨_, _, _, _, _, h1⟩
        cases h1
      · intro r1 h1
        cases h1

/-- The key `[1]` is live in the example context and the run never deletes
it. -/
theorem live_key_never_deleted_witness :
    Live exampleContext [1] ∧
      Event.DeleteByKey [1] none ∉ (aptlyDbCleanup [] exampleContext).trace :=
  ⟨Or.inl ⟨_, List.mem_cons_self _ _, ⟨[[1]]⟩, rfl, List.mem_cons_self _ _⟩,
    live_key_never_deleted [] exampleContext [1]
      (Or.inl ⟨_, List.mem_cons_self _ _, ⟨[[1]]⟩, rfl, List.mem_cons_self _ _⟩) none⟩

/-- C7: when `LoadComplete` fails for a mirror, a local repository or a snapshot,
the run ends with that failing call and returns its error as it is; it has made
only `LoadComplete` calls, all but the last without error, so that no
`StartBatch`, no `DeleteByKey`, no `Remove` and no `CompactDB` was issued, and
the package records and the pool are as before. -/
theorem mark_failure_is_atomic (c : Context)
    (h : (∃ r ∈ c.remoteRepos, r.loadErr ≠ none) ∨ (∃ r ∈ c.localRepos, r.loadErr ≠ none) ∨
      (∃ s ∈ c.snapshots, s.loadErr ≠ none)) :
    ∃ name err pre,
      (aptlyDbCleanup [] c).trace = pre ++ [Event.LoadComplete name (some err)] ∧
      (∀ ev ∈ pre, ∃ n, ev = Event.LoadComplete n none) ∧
      (aptlyDbCleanup [] c).err = some err ∧
      Event.StartBatch ∉ (aptlyDbCleanup [] c).trace ∧
      (∀ k r, Event.DeleteByKey k r ∉ (aptlyDbCleanup [] c).trace) ∧
      (∀ p n r, Event.Remove p n r ∉ (aptlyDbCleanup [] c).trace) ∧
      (∀ r, Event.CompactDB r ∉ (aptlyDbCleanup [] c).trace) ∧
      (aptlyDbCleanup [] c).context.database = c.database ∧
      (aptlyDbCleanup [] c).context.packagePool = c.packagePool := by
  have hne : loadFailure (entries c) ≠ none := by
    rw [Ne, loadFailure_eq_none_iff]
    intro hall
    rcases h with ⟨r, hr, h1⟩ | ⟨r, hr, h1⟩ | ⟨r, hr, h1⟩
    · exact h1 (hall r.entry (by simp only [entries, List.mem_append, List.mem_map]
                                 exact Or.inl (Or.inl ⟨r, hr, rfl⟩)))
    · exact h1 (hall r.entry (by simp only [entries, List.mem_append, List.mem_map]
                                 exact Or.inl (Or.inr ⟨r, hr, rfl⟩)))
    · exact h1 (hall r.entry (by simp only [entries, List.mem_append, List.mem_map]
                                 exact Or.inr ⟨r, hr, rfl⟩))
  obtain ⟨err, herr⟩ := Option.ne_none_iff_exists'.1 hne
  obtain ⟨name, pre, h1, h2⟩ := loadTrace_of_failure _ _ herr
  have hout : aptlyDbCleanup [] c = ⟨some err, c, loadTrace (entries c)⟩ := by
    rw [aptlyDbCleanup_nil]
    unfold cleanupOutcome
    rw [herr]
  have hno : ∀ ev ∈ (aptlyDbCleanup [] c).trace, ∃ n r, ev = Event.LoadComplete n r := by
    intro ev hev
    rw [hout] at hev
    simp only [h1, List.mem_append, List.mem_singleton] at hev
    rcases hev with hev | hev
    · obtain ⟨n, hn⟩ := h2 ev hev
      exact ⟨n, none, hn⟩
    · exact ⟨name, some err, hev⟩
  refine ⟨name, err, pre, by rw [hout]; exact h1, h2, by rw [hout], ?_, ?_, ?_, ?_,
    by rw [hout], by rw [hout]⟩
  · intro hmem
    obtain ⟨_, _, h3⟩ := hno _ hmem
    cases h3
  · intro k r hmem
    obtain ⟨_, _, h3⟩ := hno _ hmem
    cases h3
  · intro p n r hmem
    obtain ⟨_, _, h3⟩ := hno _ hmem
    cases h3
  · intro r hmem
    obtain ⟨_, _, h3⟩ := hno _ hmem
    cases h3

/-- The snapshot of the context fails to load: the run returns its error after
two `LoadComplete` calls and nothing else. -/
theorem mark_failure_is_atomic_witness :
    ∃ name err pre,
      (aptlyDbCleanup [] failingLoadContext).trace =
        pre ++ [Event.LoadComplete name (some err)] ∧
      (∀ ev ∈ pre, ∃ n, ev = Event.LoadComplete n none) ∧
      (aptlyDbCleanup [] failingLoadContext).err = some err ∧
      Event.StartBatch ∉ (aptlyDbCleanup [] failingLoadContext).trace ∧
      (∀ k r, Event.DeleteByKey k r ∉ (aptlyDbCleanup [] failingLoadContext).trace) ∧
      (∀ p n r, Event.Remove p n r ∉ (aptlyDbCleanup [] failingLoadContext).trace) ∧
      (∀ r, Event.CompactDB r ∉ (aptlyDbCleanup [] failingLoadContext).trace) ∧
      (aptlyDbCleanup [] failingLoadContext).context.database = failingLoadContext.database ∧
      (aptlyDbCleanup [] failingLoadContext).context.packagePool =
        failingLoadContext.packagePool :=
  mark_failure_is_atomic failingLoadContext
    (Or.inr (Or.inr ⟨_, List.mem_cons_self _ _, by decide⟩))

/-! ## The dependency guard of `aptly mirror drop` -/

/-- C6: for a mirror that `ByName` resolves, without `-force` and with a
snapshot made from the mirror the command returns an error, calls `Drop` for no
mirror and leaves the collection of mirrors as it was; with `-force` it calls
`Drop` on the mirror without looking for snapshots; without `-force` and with no
snapshot made from the mirror it calls `Drop` on the mirror as well. -/
theorem mirror_drop_guard (c : Context) (name : String) (repo : RemoteRepo) (force : Bool)
    (h : (ByName name ⟨c, []⟩).2 = Except.ok repo) :
    (force = false → (ByRemoteRepoSource repo ⟨c, []⟩).2 ≠ [] →
      (aptlyMirrorDrop [name] force c).err =
          some ⟨"won't delete mirror with snapshots, use -force to override"⟩ ∧
        (∀ n r, Event.Drop n r ∉ (aptlyMirrorDrop [name] force c).trace) ∧
        (aptlyMirrorDrop [name] force c).context.remoteRepos = c.remoteRepos) ∧
    (force = true →
      Event.Drop repo.Name (c.dropErr repo.Name) ∈ (aptlyMirrorDrop [name] force c).trace ∧
        ∀ n l, Event.ByRemoteRepoSource n l ∉ (aptlyMirrorDrop [name] force c).trace) ∧
    (force = false → (ByRemoteRepoSource repo ⟨c, []⟩).2 = [] →
      Event.Drop repo.Name (c.dropErr repo.Name) ∈ (aptlyMirrorDrop [name] force c).trace) := by
  unfold ByName at h
  cases hf : c.remoteRepos.find? (fun r => decide (r.Name = name)) with
  | none => simp [hf] at h
  | some repo1 =>
    simp only [hf, Except.ok.injEq] at h
    subst h
    refine ⟨?_, ?_, ?_⟩
    · intro hforce hdep
      subst hforce
      simp only [ByRemoteRepoSource] at hdep
      have hlen : 0 < (c.snapshots.filter
          (fun sn => decide (repo1.Name ∈ sn.sourceMirrors))).length :=
        List.length_pos.2 hdep
      simp [aptlyMirrorDrop, ByName, hf, ByRemoteRepoSource, State.log, hlen]
    · intro hforce
      subst hforce
      cases hd : c.dropErr repo1.Name <;>
        simp [aptlyMirrorDrop, ByName, hf, Drop, State.log, hd]
    · intro hforce hdep
      subst hforce
      simp only [ByRemoteRepoSource] at hdep
      cases hd : c.dropErr repo1.Name <;>
        simp [aptlyMirrorDrop, ByName, hf, ByRemoteRepoSource, Drop, State.log, hd, hdep]

/-- The mirror `wheezy-main` of the example context has the snapshot `snap1`:
without `-force` the command refuses and the mirror stays; with `-force` the
mirror is dropped. -/
theorem mirror_drop_guard_witness :
    ((aptlyMirrorDrop ["wheezy-main"] false exampleContext).err =
        some ⟨"won't delete mirror with snapshots, use -force to override"⟩ ∧
      (∀ n r, Event.Drop n r ∉ (aptlyMirrorDrop ["wheezy-main"] false exampleContext).trace) ∧
      (aptlyMirrorDrop ["wheezy-main"] false exampleContext).context.remoteRepos =
        exampleContext.remoteRepos) ∧
    Event.Drop "wheezy-main" none ∈ (aptlyMirrorDrop ["wheezy-main"] true exampleContext).trace :=
  ⟨(mirror_drop_guard exampleContext "wheezy-main" ⟨"wheezy-main", none, some ⟨[[1]]⟩⟩ false
      rfl).1 rfl (by decide),
    ((mirror_drop_guard exampleContext "wheezy-main" ⟨"wheezy-main", none, some ⟨[[1]]⟩⟩ true
      rfl).2.1 rfl).1⟩

/-! ## The propagation of errors -/

theorem loadTrace_err : ∀ (l : List Entry) (ev : Event) (e : GoError),
    ev ∈ loadTrace l → ev.err? = some e → loadFailure l = some e ∧ ev.propagated = some e
  | [], ev, e, h, _ => by simp [loadTrace] at h
  | x :: l, ev, e, h, he => by
    rcases x with ⟨n, _ | err, refs⟩
    · simp only [loadTrace, List.mem_cons] at h
      rcases h with h | h
      · subst h
        simp [Event.err?] at he
      · simpa [loadFailure] using loadTrace_err l ev e h he
    · simp only [loadTrace, List.mem_singleton] at h
      subst h
      simp only [Event.err?, Option.some.injEq] at he
      subst he
      exact ⟨rfl, rfl⟩

theorem deleteTrace_err (f : Key → Option GoError) : ∀ (l : List Key) (ev : Event)
    (e : GoError), ev ∈ deleteTrace f l → ev.err? = some e →
      deleteFailure f l = some e ∧ ev.propagated = some e
  | [], ev, e, h, _ => by simp [deleteTrace] at h
  | k :: l, ev, e, h, he => by
    cases hk : f k with
    | none =>
      simp only [deleteTrace, hk, List.mem_cons] at h
      rcases h with h | h
      · subst h
        simp [Event.err?] at he
      · simpa [deleteFailure, hk] using deleteTrace_err f l ev e h he
    | some err =>
      simp only [deleteTrace, hk, List.mem_singleton] at h
      subst h
      simp only [Event.err?, Option.some.injEq] at he
      subst he
      exact ⟨by simp [deleteFailure, hk], rfl⟩

theorem refTrace_err (pk : List Package) : ∀ (l : List Key) (ev : Event) (e : GoError),
    ev ∈ refTrace pk l → ev.err? = some e → refFailure pk l = some e ∧ ev.propagated = some e
  | [], ev, e, h, _ => by simp [refTrace] at h
  | k :: l, ev, e, h, he => by
    cases hk : pk.find? (fun p => decide (p.key = k)) with
    | none =>
      simp only [refTrace, hk, List.mem_singleton] at h
      subst h
      simp only [Event.err?, Option.some.injEq] at he
      subst he
      exact ⟨by simp [refFailure, hk], rfl⟩
    | some p =>
      cases hp : p.filesErr with
      | none =>
        simp only [refTrace, hk, hp, List.mem_cons] at h
        rcases h with h | h | h
        · subst h
          simp [Event.err?] at he
        · subst h
          simp [Event.err?] at he
        · simpa [refFailure, hk, hp] using refTrace_err pk l ev e h he
      | some err =>
        simp only [refTrace, hk, hp, List.mem_cons, List.mem_singleton, List.not_mem_nil,
          or_false] at h
        rcases h with h | h
        · subst h
          simp [Event.err?] at he
        · subst h
          simp only [Event.err?, Option.some.injEq] at he
          subst he
          exact ⟨by simp [refFailure, hk, hp], rfl⟩

theorem removeTrace_err (f : Path → Option GoError) : ∀ (l : List Path) (pool : List PoolFile)
    (ev : Event) (e : GoError), ev ∈ removeTrace f pool l → ev.err? = some e →
      removeFailure f pool l = some e ∧ ev.propagated = some e
  | [], pool, ev, e, h, _ => by simp [removeTrace] at h
  | p :: l, pool, ev, e, h, he => by
    cases hp : f p with
    | some err =>
      simp only [removeTrace, hp, List.mem_singleton] at h
      subst h
      simp only [Event.err?, Option.some.injEq] at he
      subst he
      exact ⟨by simp [removeFailure, hp], rfl⟩
    | none =>
      cases hf : pool.find? (fun g => decide (g.path = p)) with
      | none =>
        simp only [removeTrace, hp, hf, List.mem_singleton] at h
        subst h
        simp only [Event.err?, Option.some.injEq] at he
        subst he
        exact ⟨by simp [removeFailure, hp, hf], rfl⟩
      | some g =>
        simp only [removeTrace, hp, hf, List.mem_cons] at h
        rcases h with h | h
        · subst h
          simp [Event.err?] at he
        · simpa [removeFailure, hp, hf] using removeTrace_err f l _ ev e h he

theorem sweepOutcome_err (c : Context) (tr : List Event) (live td : PackageRefList)
    (htr : ∀ ev ∈ tr, ev.err? = none) :
    ∀ ev ∈ (sweepOutcome c tr live td).trace, ∀ e, ev.err? = some e →
      (sweepOutcome c tr live td).err = ev.propagated := by
  suffices h : ∀ o : Outcome, o = sweepOutcome c tr live td →
      ∀ ev ∈ o.trace, ∀ e, ev.err? = some e → o.err = ev.propagated from h _ rfl
  intro o ho ev hev e he
  unfold sweepOutcome at ho
  simp only [] at ho
  split at ho
  · rename_i hdel
    subst ho
    simp only [List.mem_append, List.mem_singleton, or_assoc] at hev
    obtain hev | hev | hev := hev
    · exact absurd he (by rw [htr ev hev]; simp)
    · subst hev
      simp [Event.err?] at he
    · obtain ⟨h1, h2⟩ := deleteTrace_err _ _ _ _ hev he
      rw [hdel] at h1
      rw [h2]
      exact h1
  · rename_i hdel
    have hD : ev ∉ deleteTrace c.deleteByKeyErr td.Refs := fun hev => by
      obtain ⟨h1, _⟩ := deleteTrace_err _ _ _ _ hev he
      rw [hdel] at h1
      cases h1
    split at ho
    · subst ho
      simp only [List.mem_append, List.mem_singleton, or_assoc] at hev
      obtain hev | hev | hev | hev := hev
      · exact absurd he (by rw [htr ev hev]; simp)
      · subst hev
        simp [Event.err?] at he
      · exact absurd hev hD
      · subst hev
        rfl
    · split at ho
      · rename_i hrf
        subst ho
        simp only [List.mem_append, List.mem_singleton, or_assoc] at hev
        obtain hev | hev | hev | hev | hev := hev
        · exact absurd he (by rw [htr ev hev]; simp)
        · subst hev
          simp [Event.err?] at he
        · exact absurd hev hD
        · subst hev
          simp [Event.err?] at he
        · obtain ⟨h1, h2⟩ := refTrace_err _ _ _ _ hev he
          rw [hrf] at h1
          rw [h2]
          exact h1
      · rename_i hrf
        have hR : ev ∉ refTrace (c.database.packages.filter
            (fun p => decide (p.key ∉ deleteIssued c.deleteByKeyErr td.Refs))) live.Refs :=
          fun hev => by
            obtain ⟨h1, _⟩ := refTrace_err _ _ _ _ hev he
            rw [hrf] at h1
            cases h1
        split at ho
        · subst ho
          simp only [List.mem_append, List.mem_singleton, or_assoc] at hev
          obtain hev | hev | hev | hev | hev | hev := hev
          · exact absurd he (by rw [htr ev hev]; simp)
          · subst hev
            simp [Event.err?] at he
          · exact absurd hev hD
          · subst hev
            simp [Event.err?] at he
          · exact absurd hev hR
          · subst hev
            rfl
        · split at ho
          · rename_i hrm
            subst ho
            simp only [List.mem_append, List.mem_singleton, or_assoc] at hev
            obtain hev | hev | hev | hev | hev | hev | hev := hev
            · exact absurd he (by rw [htr ev hev]; simp)
            · subst hev
              simp [Event.err?] at he
            · exact absurd hev hD
            · subst hev
              simp [Event.err?] at he
            · exact absurd hev hR
            · subst hev
              simp [Event.err?] at he
            · obtain ⟨h1, h2⟩ := removeTrace_err _ _ _ _ _ hev he
              rw [hrm] at h1
              rw [h2]
              exact h1
          · rename_i hrm
            have hRM : ev ∉ removeTrace c.removeErr c.packagePool
                (StrSlicesSubstract (c.packagePool.map PoolFile.path)
                  (sortStrings (refPaths (c.database.packages.filter
                    (fun p => decide (p.key ∉ deleteIssued c.deleteByKeyErr td.Refs)))
                    live.Refs))) := fun hev => by
              obtain ⟨h1, _⟩ := removeTrace_err _ _ _ _ _ hev he
              rw [hrm] at h1
              cases h1
            subst ho
            simp only [List.mem_append, List.mem_singleton] at hev
            obtain hev | hev := hev
            · split at hev
              · simp only [List.mem_append, List.mem_singleton, or_assoc] at hev
                obtain hev | hev | hev | hev | hev | hev | hev | hev := hev
                · exact absurd he (by rw [htr ev hev]; simp)
                · subst hev
                  simp [Event.err?] at he
                · exact absurd hev hD
                · subst hev
                  simp [Event.err?] at he
                · exact absurd hev hR
                · subst hev
                  simp [Event.err?] at he
                · exact absurd hev hRM
                · subst hev
                  simp [Event.err?] at he
              · simp only [List.mem_append, List.mem_singleton, or_assoc] at hev
                obtain hev | hev | hev | hev | hev | hev | hev := hev
                · exact absurd he (by rw [htr ev hev]; simp)
                · subst hev
                  simp [Event.err?] at he
                · exact absurd hev hD
                · subst hev
                  simp [Event.err?] at he
                · exact absurd hev hR
                · subst hev
                  simp [Event.err?] at he
                · exact absurd hev hRM
            · subst hev
              rfl

/-- C9, amended: when a call to a collaborator returns an error, the command
returns the error of that call as it is when the call is `LoadComplete`,
`DeleteByKey`, `ByKey`, `Package.FilepathList`, `Remove` or `CompactDB`, and
returns a new error made by `fmt.Errorf`, whose message is that of the error
after a fixed text, when the call is `FinishBatch`, `packagePool.FilepathList`,
`ByName` or `Drop`. -/
theorem errors_propagate (args : List String) (force : Bool) (c : Context) :
    (∀ ev ∈ (aptlyDbCleanup args c).trace, ∀ e, ev.err? = some e →
      (aptlyDbCleanup args c).err = ev.propagated) ∧
    (∀ ev ∈ (aptlyMirrorDrop args force c).trace, ∀ e, ev.err? = some e →
      (aptlyMirrorDrop args force c).err = ev.propagated) := by
  constructor
  · cases args with
    | cons a l => simp [aptlyDbCleanup]
    | nil =>
      rw [aptlyDbCleanup_nil]
      unfold cleanupOutcome
      split
      · rename_i err hload
        intro ev hev e he
        obtain ⟨h1, h2⟩ := loadTrace_err _ _ _ hev he
        rw [hload] at h1
        rw [h2]
        exact h1
      · rename_i hload
        apply sweepOutcome_err
        intro ev hev
        obtain ⟨n, hn⟩ := loadTrace_of_ok _ hload ev hev
        rw [hn]
        rfl
  · unfold aptlyMirrorDrop
    split
    · rename_i name
      cases hf : c.remoteRepos.find? (fun r => decide (r.Name = name)) with
      | none =>
        intro ev hev e he
        simp only [ByName, hf, State.log, List.nil_append, List.mem_singleton] at hev
        subst hev
        simp [ByName, hf, Event.propagated]
      | some repo =>
        cases force with
        | true =>
          cases hd : c.dropErr repo.Name with
          | none =>
            intro ev hev e he
            simp only [ByName, hf, State.log, List.nil_append, Drop, hd, Bool.not_true,
              Bool.false_eq_true, if_false, List.mem_cons, List.mem_singleton,
              List.not_mem_nil, or_false, List.cons_append] at hev
            rcases hev with hev | hev <;> subst hev <;> simp [Event.err?] at he
          | some err =>
            intro ev hev e he
            simp only [ByName, hf, State.log, List.nil_append, Drop, hd, Bool.not_true,
              Bool.false_eq_true, if_false, List.mem_cons, List.mem_singleton,
              List.not_mem_nil, or_false, List.cons_append] at hev
            rcases hev with hev | hev
            · subst hev
              simp [Event.err?] at he
            · subst hev
              simp [ByName, hf, State.log, Drop, hd, Event.propagated]
        | false =>
          by_cases hdep : 0 < (c.snapshots.filter
              (fun sn => decide (repo.Name ∈ sn.sourceMirrors))).length
          · intro ev hev e he
            simp only [ByName, hf, State.log, List.nil_append, ByRemoteRepoSource, hdep,
              Bool.not_false, if_true, gt_iff_lt, List.mem_cons, List.mem_singleton,
              List.not_mem_nil, or_false, List.cons_append] at hev
            rcases hev with hev | hev <;> subst hev <;> simp [Event.err?] at he
          · cases hd : c.dropErr repo.Name with
            | none =>
              intro ev hev e he
              simp only [ByName, hf, State.log, List.nil_append, ByRemoteRepoSource, hdep,
                Bool.not_false, if_true, if_false, gt_iff_lt, Drop, hd, List.mem_cons,
                List.mem_singleton, List.not_mem_nil, or_false, List.cons_append] at hev
              rcases hev with hev | hev | hev <;> subst hev <;> simp [Event.err?] at he
            | some err =>
              intro ev hev e he
              simp only [ByName, hf, State.log, List.nil_append, ByRemoteRepoSource, hdep,
                Bool.not_false, if_true, if_false, gt_iff_lt, Drop, hd, List.mem_cons,
                List.mem_singleton, List.not_mem_nil, or_false, List.cons_append] at hev
              rcases hev with hev | hev | hev
              · subst hev
                simp [Event.err?] at he
              · subst hev
                simp [Event.err?] at he
              · subst hev
                simp [ByName, hf, State.log, ByRemoteRepoSource, hdep, Drop, hd,
                  Event.propagated]
    · simp

/-- C9, counterexample: the database fails to commit the batch with the error
"no space left on device"; the command does not return that error but a new one
with another message. -/
theorem finish_batch_error_is_wrapped :
    Event.FinishBatch (some ⟨"no space left on device"⟩) ∈
        (aptlyDbCleanup [] commitFailureContext).trace ∧
      (aptlyDbCleanup [] commitFailureContext).err ≠ some ⟨"no space left on device"⟩ ∧
      (aptlyDbCleanup [] commitFailureContext).err =
        some ⟨"unable to write to DB: no space left on device"⟩ := by
  decide

/-! ## Runs without error -/

theorem find?_filter_of_imp {α : Type} (q r : α → Bool) (hqr : ∀ a, q a = true → r a = true) :
    ∀ (l : List α), (l.filter r).find? q = l.find? q
  | [] => rfl
  | a :: l => by
    by_cases hr : r a = true
    · rw [List.filter_cons_of_pos hr]
      by_cases hq : q a = true
      · simp [List.find?_cons, hq]
      · simp [List.find?_cons, hq, find?_filter_of_imp q r hqr l]
    · rw [List.filter_cons_of_neg hr]
      have hq : ¬ q a = true := fun hq => hr (hqr a hq)
      simp [List.find?_cons, hq, find?_filter_of_imp q r hqr l]

theorem find?_survivors (c : Context) (k : Key) (hk : k ∈ (existingPackageRefs c).Refs) :
    (survivors c).find? (fun p => decide (p.key = k)) =
      c.database.packages.find? (fun p => decide (p.key = k)) := by
  unfold survivors
  apply find?_filter_of_imp
  intro p hp
  simp only [decide_eq_true_eq] at hp ⊢
  subst hp
  intro htd
  rw [toDelete, mem_Substract] at htd
  exact htd.2 hk

theorem ref_congr (pk1 pk2 : List Package) : ∀ (l : List Key),
    (∀ k ∈ l, pk1.find? (fun p => decide (p.key = k)) =
      pk2.find? (fun p => decide (p.key = k))) →
    refFailure pk1 l = refFailure pk2 l ∧ refTrace pk1 l = refTrace pk2 l ∧
      refPaths pk1 l = refPaths pk2 l
  | [], _ => ⟨rfl, rfl, rfl⟩
  | k :: l, h => by
    obtain ⟨h1, h2, h3⟩ := ref_congr pk1 pk2 l (fun k1 hk1 => h k1 (List.mem_cons_of_mem _ hk1))
    have hk := h k (List.mem_cons_self _ _)
    simp only [refFailure, refTrace, refPaths, hk, h1, h2, h3, and_self]

theorem ref_survivors (c : Context) :
    refFailure (survivors c) (existingPackageRefs c).Refs =
        refFailure c.database.packages (existingPackageRefs c).Refs ∧
      refTrace (survivors c) (existingPackageRefs c).Refs =
        refTrace c.database.packages (existingPackageRefs c).Refs ∧
      refPaths (survivors c) (existingPackageRefs c).Refs =
        refPaths c.database.packages (existingPackageRefs c).Refs :=
  ref_congr _ _ _ (fun k hk => find?_survivors c k hk)

/-- What a run without arguments and without error has gone through: no call
has failed, the calls are those of the mark phase, of the batch, of the loop
over the live keys and of the loop over `filesToDelete`, and the context holds
the surviving records and what the removals left of the pool. -/
theorem cleanup_ok (c : Context) (h : (aptlyDbCleanup [] c).err = none) :
    loadFailure (entries c) = none ∧
      deleteFailure c.deleteByKeyErr (toDelete c).Refs = none ∧
      c.finishBatchErr = none ∧
      refFailure c.database.packages (existingPackageRefs c).Refs = none ∧
      c.filepathListErr = none ∧
      removeFailure c.removeErr c.packagePool (filesToDelete c) = none ∧
      c.compactDBErr = none ∧
      (aptlyDbCleanup [] c).context =
        withPool (withDb c ⟨survivors c, none⟩)
          (removePool c.removeErr c.packagePool (filesToDelete c)) ∧
      ∃ freed,
        (aptlyDbCleanup [] c).trace =
          loadTrace (entries c) ++ [Event.StartBatch] ++
            (toDelete c).Refs.map (fun k => Event.DeleteByKey k none) ++
            [Event.FinishBatch none] ++
            refTrace c.database.packages (existingPackageRefs c).Refs ++
            [Event.PoolFilepathList none] ++
            removeTrace c.removeErr c.packagePool (filesToDelete c) ++ freed ++
            [Event.CompactDB none] ∧
        (freed = [] ∨ ∃ n, freed = [Event.DiskSpaceFreed n]) := by
  rw [aptlyDbCleanup_nil] at h ⊢
  unfold cleanupOutcome at h ⊢
  split at h
  · simp at h
  · rename_i hload
    rw [hload]
    simp only []
    obtain ⟨h1, h2, h3, h4, h5, h6, h7, freed, post, h8, h9, h10⟩ := sweepOutcome_ok _ _ _ _ h
    obtain ⟨r1, r2, r3⟩ := ref_survivors c
    have e1 : mergeRefs (entries c) NewPackageRefList = existingPackageRefs c := rfl
    have e2 : (AllPackageRefs ⟨c, []⟩).Substract (existingPackageRefs c) = toDelete c := rfl
    have e3 : c.database.packages.filter (fun p => decide (p.key ∉ (toDelete c).Refs)) =
        survivors c := rfl
    simp only [e1, e2, e3, r1, r2, r3] at h1 h2 h3 h4 h5 h6 h7 h8 ⊢
    have e4 : StrSlicesSubstract (c.packagePool.map PoolFile.path)
        (sortStrings (refPaths c.database.packages (existingPackageRefs c).Refs)) =
        filesToDelete c := rfl
    simp only [e4] at h5 h7 h8
    subst h9
    exact ⟨trivial, h1, h2, h3, h4, h5, h6, h7, freed, h8, h10⟩

/-! ## The metadata sweep -/

/-- C3, amended: after a run without arguments and without error, every key of
`AllPackageRefs()` that is in the reference list of no mirror, no local
repository and no snapshot has been passed to `DeleteByKey`, without error,
between `StartBatch` and a `FinishBatch` that returned no error, and the store
holds no record with that key any more. -/
theorem unreferenced_key_deleted (c : Context) (k : Key)
    (hok : (aptlyDbCleanup [] c).err = none)
    (hk : k ∈ (AllPackageRefs ⟨c, []⟩).Refs) (hdead : ¬ Live c k) :
    (∃ pre mid post,
      (aptlyDbCleanup [] c).trace =
        pre ++ [Event.StartBatch] ++ mid ++ [Event.FinishBatch none] ++ post ∧
      Event.DeleteByKey k none ∈ mid ∧
      (∀ ev ∈ mid, ∃ k1, ev = Event.DeleteByKey k1 none)) ∧
    (∀ pkg ∈ (aptlyDbCleanup [] c).context.database.packages, pkg.key ≠ k) ∧
    k ∉ (AllPackageRefs ⟨(aptlyDbCleanup [] c).context, []⟩).Refs ∧
    (aptlyDbCleanup [] c).context.database.batch = none := by
  obtain ⟨hload, _, _, _, _, _, _, hctx, freed, htr, _⟩ := cleanup_ok c hok
  have hktd : k ∈ (toDelete c).Refs := by
    rw [toDelete, mem_Substract]
    exact ⟨hk, fun hl => hdead ((mem_existingPackageRefs c hload k).1 hl)⟩
  have hpk : ∀ pkg ∈ (aptlyDbCleanup [] c).context.database.packages, pkg.key ≠ k := by
    intro pkg hpkg hkey
    rw [hctx] at hpkg
    simp only [withPool, withDb, survivors, List.mem_filter, decide_eq_true_eq] at hpkg
    exact hpkg.2 (hkey ▸ hktd)
  refine ⟨⟨loadTrace (entries c), (toDelete c).Refs.map (fun k => Event.DeleteByKey k none),
    refTrace c.database.packages (existingPackageRefs c).Refs ++
      [Event.PoolFilepathList none] ++
      removeTrace c.removeErr c.packagePool (filesToDelete c) ++ freed ++
      [Event.CompactDB none], ?_, ?_, ?_⟩, hpk, ?_, ?_⟩
  · rw [htr]
    simp only [List.append_assoc]
  · exact List.mem_map.2 ⟨k, hktd, rfl⟩
  · intro ev hev
    obtain ⟨k1, _, h1⟩ := List.mem_map.1 hev
    exact ⟨k1, h1.symm⟩
  · simp only [AllPackageRefs, List.mem_dedup, List.mem_map, not_exists, not_and]
    intro pkg hpkg
    exact hpk pkg hpkg
  · rw [hctx]
    rfl

/-- The package `[2]` of the example context is referenced by nothing: the run
deletes it inside the batch. -/
theorem unreferenced_key_deleted_witness :
    (∃ pre mid post,
      (aptlyDbCleanup [] exampleContext).trace =
        pre ++ [Event.StartBatch] ++ mid ++ [Event.FinishBatch none] ++ post ∧
      Event.DeleteByKey [2] none ∈ mid ∧
      (∀ ev ∈ mid, ∃ k1, ev = Event.DeleteByKey k1 none)) ∧
    (∀ pkg ∈ (aptlyDbCleanup [] exampleContext).context.database.packages, pkg.key ≠ [2]) ∧
    [2] ∉ (AllPackageRefs ⟨(aptlyDbCleanup [] exampleContext).context, []⟩).Refs ∧
    (aptlyDbCleanup [] exampleContext).context.database.batch = none :=
  unreferenced_key_deleted exampleContext [2] (by decide) (by decide) (by
    simp [Live, exampleContext, healthyContext, RemoteRepo.RefList, Snapshot.RefList])

/-- C3, counterexample: called with an argument, the command shows its usage and
returns a nil error without a single call to a collaborator; the key `[2]` of
the example context, which is in `AllPackageRefs()` and in no reference list, is
still in the store after the run. -/
theorem usage_run_deletes_nothing :
    (aptlyDbCleanup ["x"] exampleContext).err = none ∧
      (aptlyDbCleanup ["x"] exampleContext).trace = [] ∧
      [2] ∈ (AllPackageRefs ⟨exampleContext, []⟩).Refs ∧
      ¬ Live exampleContext [2] ∧
      [2] ∈ (AllPackageRefs ⟨(aptlyDbCleanup ["x"] exampleContext).context, []⟩).Refs :=
  ⟨by decide, by decide, by decide,
    by simp [Live, exampleContext, healthyContext, RemoteRepo.RefList, Snapshot.RefList],
    by decide⟩

theorem mem_deleteIssued (f : Key → Option GoError) : ∀ (l : List Key) (k : Key),
    k ∈ deleteIssued f l → Event.DeleteByKey k none ∈ deleteTrace f l
  | [], k, h => by simp [deleteIssued] at h
  | k1 :: l, k, h => by
    cases hk : f k1 with
    | some err => simp [deleteIssued, hk] at h
    | none =>
      simp only [deleteIssued, hk, List.mem_cons] at h
      simp only [deleteTrace, hk, List.mem_cons]
      rcases h with h | h
      · exact Or.inl (by rw [h])
      · exact Or.inr (mem_deleteIssued f l k h)

theorem deleteIssued_of_mem (f : Key → Option GoError) : ∀ (l : List Key) (k : Key),
    Event.DeleteByKey k none ∈ deleteTrace f l → k ∈ deleteIssued f l
  | [], k, h => by simp [deleteTrace] at h
  | k1 :: l, k, h => by
    cases hk : f k1 with
    | some err => simp [deleteTrace, hk] at h
    | none =>
      simp only [deleteTrace, hk, List.mem_cons] at h
      simp only [deleteIssued, hk, List.mem_cons]
      rcases h with h | h
      · injection h with h1 _
        exact Or.inl h1
      · exact Or.inr (deleteIssued_of_mem f l k h)

theorem sweepOutcome_delete_failure (c : Context) (tr : List Event) (live td : PackageRefList)
    (e : GoError) (h : deleteFailure c.deleteByKeyErr td.Refs = some e) :
    sweepOutcome c tr live td =
      ⟨some e, withDb c ⟨c.database.packages, some (deleteIssued c.deleteByKeyErr td.Refs)⟩,
        tr ++ [Event.StartBatch] ++ deleteTrace c.deleteByKeyErr td.Refs⟩ := by
  simp only [sweepOutcome, h]

/-- C8, amended: when `DeleteByKey` fails for a key during the sweep, the failing
call is the last call of the run (the remaining deletions are not issued, and
neither `FinishBatch` nor any rollback is), the run returns that error as it
is, the committed package records and the pool are the same as before
`StartBatch`, and the batch is left open, holding exactly the keys whose
deletion was issued without error before the failure. -/
theorem delete_failure_aborts_sweep (args : List String) (c : Context) (k : Key) (e : GoError)
    (h : Event.DeleteByKey k (some e) ∈ (aptlyDbCleanup args c).trace) :
    (aptlyDbCleanup args c).err = some e ∧
    (∃ pre, (aptlyDbCleanup args c).trace = pre ++ [Event.DeleteByKey k (some e)] ∧
      ∀ ev ∈ pre, ev.err? = none) ∧
    (∀ r, Event.FinishBatch r ∉ (aptlyDbCleanup args c).trace) ∧
    (aptlyDbCleanup args c).context.database.packages = c.database.packages ∧
    (aptlyDbCleanup args c).context.packagePool = c.packagePool ∧
    ∃ issued, (aptlyDbCleanup args c).context.database.batch = some issued ∧
      ∀ k1, k1 ∈ issued ↔ Event.DeleteByKey k1 none ∈ (aptlyDbCleanup args c).trace := by
  cases args with
  | cons a l => simp [aptlyDbCleanup] at h
  | nil =>
  rw [aptlyDbCleanup_nil] at h ⊢
  unfold cleanupOutcome at h ⊢
  split at h
  · rename_i err hload
    obtain ⟨name, pre, h1, h2⟩ := loadTrace_of_failure _ _ hload
    simp only [h1, List.mem_append, List.mem_singleton] at h
    rcases h with h | h
    · obtain ⟨n, hn⟩ := h2 _ h
      cases hn
    · cases h
  · rename_i hload
    try rw [hload]
    try simp only []
    have hdel : deleteFailure c.deleteByKeyErr
        ((AllPackageRefs ⟨c, []⟩).Substract (mergeRefs (entries c) NewPackageRefList)).Refs =
        some e := by
      refine sweepOutcome_trace_cases c _ _ _ _ _ ?_ ?_ ?_ ?_ ?_ ?_ ?_ ?_ ?_ h
      · intro h1
        obtain ⟨n, hn⟩ := loadTrace_of_ok _ hload _ h1
        cases hn
      · intro h1
        cases h1
      · intro h1
        exact (deleteTrace_err _ _ _ _ h1 rfl).1
      · intro r1 h1
        cases h1
      · intro h1
        rcases mem_refTrace _ _ _ h1 with ⟨_, _, h2⟩ | ⟨_, _, h2⟩ <;> cases h2
      · intro r1 h1
        cases h1
      · rintro ⟨_, _, _, _, h1⟩
        obtain ⟨_, _, _, _, h2⟩ := mem_removeTrace _ _ _ _ h1
        cases h2
      · rintro ⟨_, _, _, _, _, h1⟩
        cases h1
      · intro r1 h1
        cases h1
    rw [sweepOutcome_delete_failure _ _ _ _ _ hdel] at h ⊢
    simp only [] at h
    obtain ⟨k2, pre, h1, h2⟩ := deleteTrace_of_failure _ _ _ hdel
    have hk2 : k2 = k := by
      simp only [h1, List.mem_append, List.mem_singleton, or_assoc] at h
      rcases h with h | h | h | h
      · obtain ⟨n, hn⟩ := loadTrace_of_ok _ hload _ h
        cases hn
      · cases h
      · obtain ⟨k3, hk3⟩ := h2 _ h
        cases hk3
      · injection h with h3 _
        exact h3.symm
    subst hk2
    refine ⟨rfl, ⟨loadTrace (entries c) ++ [Event.StartBatch] ++ pre, ?_, ?_⟩, ?_, rfl, rfl,
      _, rfl, ?_⟩
    · rw [h1]
      simp only [List.append_assoc]
    · intro ev hev
      simp only [List.mem_append, List.mem_singleton, or_assoc] at hev
      rcases hev with hev | hev | hev
      · obtain ⟨n, hn⟩ := loadTrace_of_ok _ hload _ hev
        rw [hn]
        rfl
      · rw [hev]
        rfl
      · obtain ⟨k3, hk3⟩ := h2 _ hev
        rw [hk3]
        rfl
    · intro r hr
      simp only [] at hr
      simp only [h1, List.mem_append, List.mem_singleton, or_assoc] at hr
      rcases hr with hr | hr | hr | hr
      · obtain ⟨n, hn⟩ := loadTrace_of_ok _ hload _ hr
        cases hn
      · cases hr
      · obtain ⟨k3, hk3⟩ := h2 _ hr
        cases hk3
      · cases hr
    · intro k1
      constructor
      · intro hk1
        exact List.mem_append_right _ (mem_deleteIssued _ _ _ hk1)
      · intro hk1
        simp only [List.mem_append, List.mem_singleton, or_assoc] at hk1
        rcases hk1 with hk1 | hk1 | hk1
        · obtain ⟨n, hn⟩ := loadTrace_of_ok _ hload _ hk1
          cases hn
        · cases hk1
        · exact deleteIssued_of_mem _ _ _ hk1

/-- The deletion of `[3]` fails after that of `[2]` was issued: the run returns
the error and leaves the records as they were. -/
theorem delete_failure_aborts_sweep_witness :
    (aptlyDbCleanup [] deleteFailureContext).err = some ⟨"leveldb: closed"⟩ ∧
    (∃ pre, (aptlyDbCleanup [] deleteFailureContext).trace =
        pre ++ [Event.DeleteByKey [3] (some ⟨"leveldb: closed"⟩)] ∧
      ∀ ev ∈ pre, ev.err? = none) ∧
    (∀ r, Event.FinishBatch r ∉ (aptlyDbCleanup [] deleteFailureContext).trace) ∧
    (aptlyDbCleanup [] deleteFailureContext).context.database.packages =
      deleteFailureContext.database.packages ∧
    (aptlyDbCleanup [] deleteFailureContext).context.packagePool =
      deleteFailureContext.packagePool ∧
    ∃ issued, (aptlyDbCleanup [] deleteFailureContext).context.database.batch = some issued ∧
      ∀ k1, k1 ∈ issued ↔
        Event.DeleteByKey k1 none ∈ (aptlyDbCleanup [] deleteFailureContext).trace :=
  delete_failure_aborts_sweep [] deleteFailureContext [3] ⟨"leveldb: closed"⟩ (by decide)

/-- C8, counterexample: the deletion of `[3]` fails after that of `[2]` was
issued.  No batch was open before the run; after it the batch is open and still
holds the pending deletion of `[2]`: the run has not rolled it back, and the
database is not in the state it had before `StartBatch`. -/
theorem delete_failure_leaves_batch_open :
    Event.DeleteByKey [3] (some ⟨"leveldb: closed"⟩) ∈
        (aptlyDbCleanup [] deleteFailureContext).trace ∧
      deleteFailureContext.database.batch = none ∧
      (aptlyDbCleanup [] deleteFailureContext).context.database.batch = some [[2]] ∧
      (aptlyDbCleanup [] deleteFailureContext).context.database ≠
        deleteFailureContext.database := by
  decide

/-! ## The pool sweep -/

end Aptly
